import Mathlib

/-!
Verification of the task-tracking engine's core against its specification.

The Python sources are shallowly embedded:
* strings are `List Char` (named `Str` here); Python `str` helpers
  (`strip`, `split`, `splitlines`, `startswith`, …) are re-implemented on
  `List Char` with the same semantics for the character set the files use;
* the YAML preamble of a task file is abstracted as an association list
  from key to a dynamic value (`MVal`); `yaml.dump` / `yaml.safe_load`
  round-trip such scalars, so the preamble is kept structured while the
  Markdown body is kept as raw text;
* the filesystem is a finite map from resolved path components to file
  contents;
* Python `int((completed/total)*100)` is modelled as `completed * 100 / total`
  in `Nat`; the two agree at the `0` and `100` boundary values the
  specification's claims depend on.
-/

set_option maxRecDepth 4096

/-- Strings are modelled as lists of characters. -/
abbrev Str := List Char

/-- Shorthand to turn a Lean string literal into the `List Char` model. -/
def S (s : String) : Str := s.data

/-- Python `str.strip()` whitespace class (the ASCII part used by the files). -/
def isPySpace (c : Char) : Bool :=
  c = ' ' || c = '\t' || c = '\n' || c = '\r' || c = '\x0b' || c = '\x0c'

/-- Python `str.lstrip()`. -/
def lstrip (s : Str) : Str := s.dropWhile isPySpace

/-- Python `str.rstrip()`. -/
def rstrip (s : Str) : Str := (s.reverse.dropWhile isPySpace).reverse

/-- Python `str.strip()`. -/
def strip (s : Str) : Str := rstrip (lstrip s)

/-- Python `str.split(sep)` for a one-character separator: total splitter,
`splitOnChar c "" = [""]`. -/
def splitOnChar (c : Char) : Str → List Str
  | [] => [[]]
  | x :: xs =>
    let rest := splitOnChar c xs
    if x = c then [] :: rest
    else (x :: rest.headI) :: rest.tail

/-- Python `sep.join(parts)`. -/
def joinSep (sep : Str) : List Str → Str
  | [] => []
  | [l] => l
  | l :: ls => l ++ sep ++ joinSep sep ls

/-- Helper for `splitlines`: `cur` is the current line, reversed. -/
def splitlinesGo (cur : Str) : Str → List Str
  | [] => [cur.reverse]
  | c :: cs =>
    if c = '\n' then
      cur.reverse :: (match cs with | [] => [] | _ :: _ => splitlinesGo [] cs)
    else splitlinesGo (c :: cur) cs

/-- Python `str.splitlines()` for `'\n'`-terminated text: a trailing
terminator does not produce a final empty line and `splitlines "" = []`. -/
def splitlines : Str → List Str
  | [] => []
  | s => splitlinesGo [] s

/-- Python `a.startswith(b)`. -/
def startsWith (pre s : Str) : Bool := pre.isPrefixOf s

/-- Python `b in a` for substrings. -/
def hasSub (pat s : Str) : Bool := decide (pat <:+: s)

/-- Python `str.upper()` restricted to the ASCII range the sources compare. -/
def upperAscii (s : Str) : Str := s.map Char.toUpper

/-- Python `int(s)` on a decimal literal: optional `+` sign then ASCII
digits; any other shape raises (`none`). -/
def pyInt (s : Str) : Option Nat :=
  let t := strip s
  let digits := if t.headI = '+' then t.tail else t
  if digits ≠ [] && digits.all (·.isDigit) then
    some (digits.foldl (fun a c => a * 10 + (c.toNat - 48)) 0)
  else none

/-- Format a natural number in decimal. -/
def natDigits (n : Nat) : Str := (toString n).data

/-- Python `f"{n:03d}"`. -/
def pad3 (n : Nat) : Str :=
  let d := natDigits n
  List.replicate (3 - d.length) '0' ++ d

/-! ## The node model of `src/core/step.py`

`Step`, `PlanNode` and `TaskNode` form a mutually nested tree
(`Step → PlanNode → TaskNode → Step`).  The bookkeeping fields the modelled
operations never read (per-checkpoint notes, verification check records,
attachments, timestamps other than `started_at`) are omitted; every field
appearing in `ready_for_completion`, `is_done` and `calculate_progress`
is carried. -/

mutual

inductive Step : Type where
  | mk
      (completed : Bool)
      (title : Str)
      (success_criteria : List Str)
      (tests : List Str)
      (blockers : List Str)
      (criteria_confirmed : Bool)
      (tests_confirmed : Bool)
      (criteria_auto_confirmed : Bool)
      (tests_auto_confirmed : Bool)
      (progress_notes : List Str)
      (started_at : Option Str)
      (blocked : Bool)
      (block_reason : Str)
      (plan : Option PlanNode) : Step

inductive PlanNode : Type where
  | mk
      (title : Str)
      (current : Nat)
      (tasks : List TaskNode) : PlanNode

inductive TaskNode : Type where
  | mk
      (title : Str)
      (status : Str)
      (blocked : Bool)
      (steps : List Step)
      (status_manual : Bool) : TaskNode

end

def Step.completed : Step → Bool
  | .mk c _ _ _ _ _ _ _ _ _ _ _ _ _ => c

def Step.title : Step → Str
  | .mk _ t _ _ _ _ _ _ _ _ _ _ _ _ => t

def Step.success_criteria : Step → List Str
  | .mk _ _ sc _ _ _ _ _ _ _ _ _ _ _ => sc

def Step.tests : Step → List Str
  | .mk _ _ _ ts _ _ _ _ _ _ _ _ _ _ => ts

def Step.blockers : Step → List Str
  | .mk _ _ _ _ bl _ _ _ _ _ _ _ _ _ => bl

def Step.criteria_confirmed : Step → Bool
  | .mk _ _ _ _ _ cc _ _ _ _ _ _ _ _ => cc

def Step.tests_confirmed : Step → Bool
  | .mk _ _ _ _ _ _ tc _ _ _ _ _ _ _ => tc

def Step.criteria_auto_confirmed : Step → Bool
  | .mk _ _ _ _ _ _ _ ca _ _ _ _ _ _ => ca

def Step.tests_auto_confirmed : Step → Bool
  | .mk _ _ _ _ _ _ _ _ ta _ _ _ _ _ => ta

def Step.progress_notes : Step → List Str
  | .mk _ _ _ _ _ _ _ _ _ pn _ _ _ _ => pn

def Step.started_at : Step → Option Str
  | .mk _ _ _ _ _ _ _ _ _ _ sa _ _ _ => sa

def Step.blocked : Step → Bool
  | .mk _ _ _ _ _ _ _ _ _ _ _ b _ _ => b

def Step.block_reason : Step → Str
  | .mk _ _ _ _ _ _ _ _ _ _ _ _ br _ => br

def Step.plan : Step → Option PlanNode
  | .mk _ _ _ _ _ _ _ _ _ _ _ _ _ p => p

def PlanNode.title : PlanNode → Str
  | .mk t _ _ => t

def PlanNode.current : PlanNode → Nat
  | .mk _ c _ => c

def PlanNode.tasks : PlanNode → List TaskNode
  | .mk _ _ ts => ts

def TaskNode.title : TaskNode → Str
  | .mk t _ _ _ _ => t

def TaskNode.status : TaskNode → Str
  | .mk _ s _ _ _ => s

def TaskNode.blocked : TaskNode → Bool
  | .mk _ _ b _ _ => b

def TaskNode.steps : TaskNode → List Step
  | .mk _ _ _ st _ => st

def TaskNode.status_manual : TaskNode → Bool
  | .mk _ _ _ _ m => m

mutual

/-- `src/core/step.py` `_count_step_tree` on one step and everything nested
below it (via the step's embedded plan): `(total, done)`. -/
def stepCount : Step → Nat × Nat
  | .mk c _ _ _ _ _ _ _ _ _ _ _ _ plan =>
    let below := planCount plan
    (1 + below.1, (if c then 1 else 0) + below.2)

def planCount : Option PlanNode → Nat × Nat
  | none => (0, 0)
  | some (.mk _ _ tasks) => taskListCount tasks

def taskListCount : List TaskNode → Nat × Nat
  | [] => (0, 0)
  | t :: ts =>
    let a := taskNodeCount t
    let b := taskListCount ts
    (a.1 + b.1, a.2 + b.2)

def taskNodeCount : TaskNode → Nat × Nat
  | .mk _ _ _ steps _ => stepListCount steps

def stepListCount : List Step → Nat × Nat
  | [] => (0, 0)
  | s :: ss =>
    let a := stepCount s
    let b := stepListCount ss
    (a.1 + b.1, a.2 + b.2)

end

/-- `TaskNode.calculate_progress`: percentage of completed steps in the
nested step tree, `0` when there are no steps at all.  Python's
`int((completed / total) * 100)` is modelled as `completed * 100 / total`;
both sides agree at the `0` and `100` boundaries used by `is_done`. -/
def TaskNode.calculate_progress (t : TaskNode) : Nat :=
  let c := stepListCount t.steps
  if c.1 = 0 then 0 else c.2 * 100 / c.1

/-- `TaskNode.is_done`. -/
def TaskNode.is_done (t : TaskNode) : Bool :=
  if t.blocked then false
  else if t.status_manual then upperAscii (strip t.status) = S "DONE"
  else t.calculate_progress = 100

/-- `Step.ready_for_completion`. -/
def Step.ready_for_completion (s : Step) : Bool :=
  if s.blocked then false
  else
    let plan_ready :=
      match s.plan with
      | some p => if p.tasks.isEmpty then true else p.tasks.all TaskNode.is_done
      | none => true
    let criteria_ok := s.criteria_confirmed
    let tests_ok := s.tests_confirmed || s.tests_auto_confirmed
    criteria_ok && tests_ok && plan_ready

/-- The embedded plan tasks of a step (empty when the plan is absent). -/
def Step.planTasks (s : Step) : List TaskNode :=
  match s.plan with
  | some p => p.tasks
  | none => []

/-! ## The root model of `src/core/task_detail.py` and `src/core/subtask.py`

`TaskDetail` is the on-disk root; its nested checklist items are `SubTask`s
(the legacy flat checklist the file parser in `src/infrastructure` reads).
The `_source_path` / `_source_mtime` bookkeeping fields are filesystem
metadata and are threaded explicitly by the repository model instead. -/

/-- Structured event log entry.  Modelled from the spec: `core/task_event.py`
(imported by `task_detail.py`) is not part of the sources; §3 of the spec
describes the event log as typed append-only records attached to a root. -/
structure TaskEvent where
  timestamp : Str
  event_type : Str
  actor : Str
  target : Str
deriving DecidableEq, Repr

/-- The legacy checklist item of `src/core/subtask.py`.  The last four
fields (`progress_notes`, `started_at`, `blocked`, `block_reason`) are not
declared on the `SubTask` dataclass: they belong to the newer `Step` shape,
yet `TaskDetail.to_file_content`'s `dump_subtask` reads them from each
checklist item.  They are modelled as explicit fields whose parse-time
value is always the zero default, so the serializer can be stated total. -/
inductive SubTask : Type where
  | mk
      (completed : Bool)
      (title : Str)
      (success_criteria : List Str)
      (tests : List Str)
      (blockers : List Str)
      (criteria_confirmed : Bool)
      (tests_confirmed : Bool)
      (blockers_resolved : Bool)
      (criteria_auto_confirmed : Bool)
      (tests_auto_confirmed : Bool)
      (blockers_auto_resolved : Bool)
      (criteria_notes : List Str)
      (tests_notes : List Str)
      (blockers_notes : List Str)
      (project_item_id : Str)
      (children : List SubTask)
      (created_at : Option Str)
      (completed_at : Option Str)
      (progress_notes : List Str)
      (started_at : Option Str)
      (blocked : Bool)
      (block_reason : Str) : SubTask

def SubTask.completed : SubTask → Bool
  | .mk c _ _ _ _ _ _ _ _ _ _ _ _ _ _ _ _ _ _ _ _ _ => c

def SubTask.title : SubTask → Str
  | .mk _ t _ _ _ _ _ _ _ _ _ _ _ _ _ _ _ _ _ _ _ _ => t

def SubTask.success_criteria : SubTask → List Str
  | .mk _ _ sc _ _ _ _ _ _ _ _ _ _ _ _ _ _ _ _ _ _ _ => sc

def SubTask.tests : SubTask → List Str
  | .mk _ _ _ ts _ _ _ _ _ _ _ _ _ _ _ _ _ _ _ _ _ _ => ts

def SubTask.blockers : SubTask → List Str
  | .mk _ _ _ _ bl _ _ _ _ _ _ _ _ _ _ _ _ _ _ _ _ _ => bl

def SubTask.criteria_confirmed : SubTask → Bool
  | .mk _ _ _ _ _ cc _ _ _ _ _ _ _ _ _ _ _ _ _ _ _ _ => cc

def SubTask.tests_confirmed : SubTask → Bool
  | .mk _ _ _ _ _ _ tc _ _ _ _ _ _ _ _ _ _ _ _ _ _ _ => tc

def SubTask.blockers_resolved : SubTask → Bool
  | .mk _ _ _ _ _ _ _ br _ _ _ _ _ _ _ _ _ _ _ _ _ _ => br

def SubTask.criteria_auto_confirmed : SubTask → Bool
  | .mk _ _ _ _ _ _ _ _ ca _ _ _ _ _ _ _ _ _ _ _ _ _ => ca

def SubTask.tests_auto_confirmed : SubTask → Bool
  | .mk _ _ _ _ _ _ _ _ _ ta _ _ _ _ _ _ _ _ _ _ _ _ => ta

def SubTask.blockers_auto_resolved : SubTask → Bool
  | .mk _ _ _ _ _ _ _ _ _ _ ba _ _ _ _ _ _ _ _ _ _ _ => ba

def SubTask.criteria_notes : SubTask → List Str
  | .mk _ _ _ _ _ _ _ _ _ _ _ cn _ _ _ _ _ _ _ _ _ _ => cn

def SubTask.tests_notes : SubTask → List Str
  | .mk _ _ _ _ _ _ _ _ _ _ _ _ tn _ _ _ _ _ _ _ _ _ => tn

def SubTask.blockers_notes : SubTask → List Str
  | .mk _ _ _ _ _ _ _ _ _ _ _ _ _ bn _ _ _ _ _ _ _ _ => bn

def SubTask.project_item_id : SubTask → Str
  | .mk _ _ _ _ _ _ _ _ _ _ _ _ _ _ pid _ _ _ _ _ _ _ => pid

def SubTask.children : SubTask → List SubTask
  | .mk _ _ _ _ _ _ _ _ _ _ _ _ _ _ _ ch _ _ _ _ _ _ => ch

def SubTask.created_at : SubTask → Option Str
  | .mk _ _ _ _ _ _ _ _ _ _ _ _ _ _ _ _ ca _ _ _ _ _ => ca

def SubTask.completed_at : SubTask → Option Str
  | .mk _ _ _ _ _ _ _ _ _ _ _ _ _ _ _ _ _ ca _ _ _ _ => ca

def SubTask.progress_notes : SubTask → List Str
  | .mk _ _ _ _ _ _ _ _ _ _ _ _ _ _ _ _ _ _ pn _ _ _ => pn

def SubTask.started_at : SubTask → Option Str
  | .mk _ _ _ _ _ _ _ _ _ _ _ _ _ _ _ _ _ _ _ sa _ _ => sa

def SubTask.blocked : SubTask → Bool
  | .mk _ _ _ _ _ _ _ _ _ _ _ _ _ _ _ _ _ _ _ _ b _ => b

def SubTask.block_reason : SubTask → Str
  | .mk _ _ _ _ _ _ _ _ _ _ _ _ _ _ _ _ _ _ _ _ _ br => br

structure TaskDetail where
  id : Str
  title : Str
  status : Str
  status_manual : Bool := false
  description : Str := []
  domain : Str := []
  phase : Str := []
  component : Str := []
  parent : Option Str := none
  priority : Str := S "MEDIUM"
  created : Str := []
  updated : Str := []
  tags : List Str := []
  assignee : Str := []
  progress : Int := 0
  blocked : Bool := false
  blockers : List Str := []
  context : Str := []
  success_criteria : List Str := []
  dependencies : List Str := []
  next_steps : List Str := []
  problems : List Str := []
  risks : List Str := []
  subtasks : List SubTask := []
  project_item_id : Option Str := none
  project_draft_id : Option Str := none
  project_remote_updated : Option Str := none
  project_issue_number : Option Str := none
  history : List Str := []
  events : List TaskEvent := []
  depends_on : List Str := []
  /-- In Python this is a dynamic attribute set by `FileTaskRepository.save`
  and read back with `getattr(task, "revision", 0)`; absent means `0`. -/
  revision : Int := 0

mutual

/-- `(total, completed)` over a subtask forest, counting nested children,
mirroring the `flatten` helper in `TaskDetail.calculate_progress`. -/
def subTaskCount : SubTask → Nat × Nat
  | .mk c _ _ _ _ _ _ _ _ _ _ _ _ _ _ ch _ _ _ _ _ _ =>
    let below := subForestCount ch
    (1 + below.1, (if c then 1 else 0) + below.2)

def subForestCount : List SubTask → Nat × Nat
  | [] => (0, 0)
  | s :: ss =>
    let a := subTaskCount s
    let b := subForestCount ss
    (a.1 + b.1, a.2 + b.2)

end

/-- `TaskDetail.calculate_progress`: the stored `progress` when the checklist
is empty, else the completed percentage (Python float truncation modelled as
`Nat` division; both agree at the `0` / `100` boundaries the claims use). -/
def TaskDetail.calculate_progress (td : TaskDetail) : Int :=
  let c := subForestCount td.subtasks
  if td.subtasks.isEmpty then td.progress else ((c.2 * 100 / c.1 : Nat) : Int)

/-- `TaskDetail.update_status_from_progress`. -/
def TaskDetail.update_status_from_progress (td : TaskDetail) : TaskDetail :=
  if td.status_manual then td
  else
    let prog := td.calculate_progress
    { td with
      progress := prog
      status :=
        if td.blocked then S "FAIL"
        else if prog = 100 then S "OK"
        else if prog > 0 then S "WARN"
        else S "FAIL" }

/-! ## The file codec

A task file is a `---`-delimited YAML preamble followed by a Markdown body.
The preamble is abstracted as an association list of dynamic values (`MVal`):
`yaml.dump` / `yaml.safe_load` round-trip these scalar shapes, and
`TaskFileParser.parse` splits the frame before handing `parts[1]` to
`yaml.safe_load`, so `FileContent` carries the preamble structured and the
body as raw text (everything after the closing `---`, before the leading
strip both sides perform). -/

/-- Dynamic YAML scalar values appearing in a task-file preamble. -/
inductive MVal : Type where
  | s (v : Str)
  | i (v : Int)
  | b (v : Bool)
  | ls (v : List Str)
  | null
  | evs (v : List TaskEvent)
deriving DecidableEq, Repr

abbrev Metadata := List (String × MVal)

structure FileContent where
  meta : Metadata
  body : Str
deriving DecidableEq, Repr

/-- Python `metadata.get(key)` (`metadata` is a dict; first binding wins). -/
def mget (m : Metadata) (k : String) : Option MVal :=
  match m with
  | [] => none
  | (k', v) :: rest => if k = k' then some v else mget rest k

/-- `metadata.get(k, dflt)` at a call site expecting a string scalar. -/
def mgetStr (m : Metadata) (k : String) (dflt : Str) : Str :=
  match mget m k with
  | some (.s v) => v
  | _ => dflt

/-- `metadata.get(k, "") or ""` (used for `domain` / `phase` / `component`,
where an explicit YAML `null` also collapses to the empty string). -/
def mgetStrOrEmpty (m : Metadata) (k : String) : Str :=
  match mget m k with
  | some (.s v) => v
  | _ => []

/-- `metadata.get(k)` at a call site expecting an optional string. -/
def mgetOptStr (m : Metadata) (k : String) : Option Str :=
  match mget m k with
  | some (.s v) => some v
  | _ => none

/-- `metadata.get(k, [])` at a call site expecting a list of strings. -/
def mgetList (m : Metadata) (k : String) : List Str :=
  match mget m k with
  | some (.ls v) => v
  | _ => []

/-- `metadata.get(k, 0)` at a call site expecting an integer. -/
def mgetInt (m : Metadata) (k : String) : Int :=
  match mget m k with
  | some (.i v) => v
  | _ => 0

/-- `metadata.get(k, False)` at a call site expecting a boolean. -/
def mgetBool (m : Metadata) (k : String) : Bool :=
  match mget m k with
  | some (.b v) => v
  | _ => false

/-- Checkpoint token in `TaskDetail.to_file_content`:
`'OK' if confirmed else 'TODO'`. -/
def okTodo (confirmed : Bool) : Str := if confirmed then S "OK" else S "TODO"

mutual

/-- `dump_subtask` inside `TaskDetail.to_file_content`: one checkbox line
followed by two-space-indented tagged detail lines, recursing into children
with a deeper indent.  The source threads an absolute `indent`; here the
block is produced at relative indent `0` and each nesting level prefixes
the whole child block with two spaces, which yields the same lines. -/
def dumpSubtask : SubTask → List Str
  | .mk completed title success_criteria tests blockers criteria_confirmed
      tests_confirmed blockers_resolved _ _ _ criteria_notes tests_notes
      blockers_notes _ children _ _ progress_notes started_at blocked
      block_reason =>
    let padD : Str := S "  "
    [S "- [" ++ [if completed then 'x' else ' '] ++ S "] " ++ title]
    ++ (if success_criteria.isEmpty then []
        else [padD ++ S "- Критерии: " ++ joinSep (S "; ") success_criteria])
    ++ (if tests.isEmpty then []
        else [padD ++ S "- Тесты: " ++ joinSep (S "; ") tests])
    ++ (if blockers.isEmpty then []
        else [padD ++ S "- Блокеры: " ++ joinSep (S "; ") blockers])
    ++ [padD ++ S "- Чекпоинты: " ++ joinSep (S "; ")
          [S "Критерии=" ++ okTodo criteria_confirmed,
           S "Тесты=" ++ okTodo tests_confirmed,
           S "Блокеры=" ++ okTodo blockers_resolved]]
    ++ (if criteria_notes.isEmpty then []
        else [padD ++ S "- Отметки критериев: " ++ joinSep (S "; ") criteria_notes])
    ++ (if tests_notes.isEmpty then []
        else [padD ++ S "- Отметки тестов: " ++ joinSep (S "; ") tests_notes])
    ++ (if blockers_notes.isEmpty then []
        else [padD ++ S "- Отметки блокеров: " ++ joinSep (S "; ") blockers_notes])
    ++ (if progress_notes.isEmpty then []
        else [padD ++ S "- Прогресс: " ++ joinSep (S "; ") progress_notes])
    ++ (match started_at with
        | some sa => [padD ++ S "- Начато: " ++ sa]
        | none => [])
    ++ (if blocked || !block_reason.isEmpty then
          let blockValue := if blocked then S "да" else S "нет"
          if block_reason.isEmpty then [padD ++ S "- Заблокировано: " ++ blockValue]
          else [padD ++ S "- Заблокировано: " ++ blockValue ++ S "; " ++ block_reason]
        else [])
    ++ (dumpSubtaskForest children).map (fun l => S "  " ++ l)

def dumpSubtaskForest : List SubTask → List Str
  | [] => []
  | st :: rest => dumpSubtask st ++ dumpSubtaskForest rest

end

/-- The `add_section` helper in `TaskDetail.to_file_content`. -/
def addSection (title : String) (content : List Str) : List Str :=
  if content.isEmpty then [] else (S "## " ++ S title) :: content ++ [[]]

/-- A conditional metadata entry `if value: metadata[k] = value` for the
optional `project_*` string fields (Python truthiness: `None` and `""`
are both skipped). -/
def projEntry (k : String) (o : Option Str) : Metadata :=
  match o with
  | some v => if v.isEmpty then [] else [(k, .s v)]
  | none => []

/-- The metadata dict built by `TaskDetail.to_file_content`, in insertion
order.  `now` stands for `self._now_iso()`. -/
def serializeMeta (td : TaskDetail) (now : Str) : Metadata :=
  [("id", .s td.id),
   ("title", .s td.title),
   ("status", .s td.status),
   ("domain", if td.domain.isEmpty then .null else .s td.domain),
   ("phase", if td.phase.isEmpty then .null else .s td.phase),
   ("component", if td.component.isEmpty then .null else .s td.component),
   ("parent", match td.parent with | some p => .s p | none => .null),
   ("priority", .s td.priority),
   ("created", .s (if td.created.isEmpty then now else td.created)),
   ("updated", .s (if td.updated.isEmpty then now else td.updated)),
   ("tags", .ls td.tags),
   ("assignee", .s (if td.assignee.isEmpty then S "ai" else td.assignee)),
   ("progress", .i td.calculate_progress)]
  ++ (if td.blocked then [("blocked", .b true), ("blockers", .ls td.blockers)] else [])
  ++ projEntry "project_item_id" td.project_item_id
  ++ projEntry "project_draft_id" td.project_draft_id
  ++ projEntry "project_remote_updated" td.project_remote_updated
  ++ projEntry "project_issue_number" td.project_issue_number
  ++ (let ids := td.subtasks.map SubTask.project_item_id
      if ids.any (fun v => !v.isEmpty) then [("subtask_project_ids", .ls ids)] else [])
  ++ (if td.status_manual then [("status_manual", .b true)] else [])
  ++ (if td.depends_on.isEmpty then [] else [("depends_on", .ls td.depends_on)])
  ++ (if td.events.isEmpty then [] else [("events", .evs td.events)])

/-- The body lines appended after the preamble by `TaskDetail.to_file_content`
(`lines[4:]` in the Python list; the first element keeps the embedded
newline of `f"# {self.title}\n"`). -/
def bodyItems (td : TaskDetail) : List Str :=
  [S "# " ++ td.title ++ [ '\n' ]]
  ++ (if td.description.isEmpty then []
      else [S "## Описание", td.description, []])
  ++ (if td.context.isEmpty then []
      else [S "## Контекст", td.context, []])
  ++ (if td.subtasks.isEmpty then []
      else (S "## Подзадачи") :: dumpSubtaskForest td.subtasks ++ [[]])
  ++ addSection "Текущие проблемы"
       (td.problems.enum.map (fun p => natDigits (p.1 + 1) ++ S ". " ++ p.2))
  ++ addSection "Следующие шаги" (td.next_steps.map (fun s => S "- " ++ s))
  ++ addSection "Критерии успеха" (td.success_criteria.map (fun s => S "- " ++ s))
  ++ addSection "Зависимости" (td.dependencies.map (fun s => S "- " ++ s))
  ++ addSection "Риски" (td.risks.map (fun s => S "- " ++ s))
  ++ addSection "История" (td.history.map (fun s => S "- " ++ s))

/-- `TaskDetail.to_file_content`: the structured preamble plus the raw body
text (the join of the body lines; the `---` frame, the blank line after it
and the final `.strip() + "\n"` belong to the frame that `parse` strips
away again). -/
def TaskDetail.to_file_content (td : TaskDetail) (now : Str) : FileContent :=
  { meta := serializeMeta td now
    body := joinSep [ '\n' ] (bodyItems td) }

/-! ## `src/infrastructure/task_file_parser.py` -/

/-- `SUBTASK_PATTERN = re.compile(r"^-\s*\[(x|X| )\]\s*(.+)$")` applied to a
stripped line: returns the completed flag (`group(1).lower() == "x"`) and
the title (`group(2)`). -/
def subtaskMatch (line : Str) : Option (Bool × Str) :=
  match line with
  | '-' :: rest =>
    match rest.dropWhile isPySpace with
    | '[' :: f :: ']' :: r4 =>
      if f = 'x' || f = 'X' || f = ' ' then
        let title := r4.dropWhile isPySpace
        if title.isEmpty then none else some (f = 'x' || f = 'X', title)
      else none
    | _ => none
  | _ => none

/-- A fresh `SubTask(completed, title)`: every other field at its
dataclass default. -/
def mkNewSub (completed : Bool) (title : Str) : SubTask :=
  .mk completed title [] [] [] false false false false false false
    [] [] [] [] [] none none [] none false []

/-- Semicolon-separated list fields:
`[x.strip() for x in s.split(";") if x.strip()]`. -/
def parseSemiList (s : Str) : List Str :=
  ((splitOnChar ';' s).map strip).filter (fun x => !x.isEmpty)

/-- `stripped.split(":", 1)[1]`: everything after the first colon. -/
def afterColon (s : Str) : Str := (s.dropWhile (fun c => !(c == ':'))).tail

/-- `token.split("=")[1].strip().upper() == "OK"`. -/
def chkOk (token : Str) : Bool :=
  upperAscii (strip ((splitOnChar '=' token).tail.headI)) == S "OK"

def SubTask.withProjectItemId (pid : Str) : SubTask → SubTask
  | .mk c t sc ts bl cc tc br ca ta ba cn tn bn _ ch cat coat pn sa bk bkr =>
    .mk c t sc ts bl cc tc br ca ta ba cn tn bn pid ch cat coat pn sa bk bkr

/-- One tagged detail line (the `elif current_subtask and …` chain of
`_save_section`'s `Подзадачи` branch); `s2` is the stripped line minus the
leading `"- "`. -/
def updateSubDetail (cur : SubTask) (s2 : Str) : SubTask :=
  match cur with
  | .mk c t sc ts bl cc tc br ca ta ba cn tn bn pid ch cat coat pn sa bk bkr =>
    if startsWith (S "Критерии:") s2 then
      .mk c t (parseSemiList (s2.drop (S "Критерии:").length)) ts bl cc tc br
        ca ta ba cn tn bn pid ch cat coat pn sa bk bkr
    else if startsWith (S "Тесты:") s2 then
      .mk c t sc (parseSemiList (s2.drop (S "Тесты:").length)) bl cc tc br
        ca ta ba cn tn bn pid ch cat coat pn sa bk bkr
    else if startsWith (S "Блокеры:") s2 then
      .mk c t sc ts (parseSemiList (s2.drop (S "Блокеры:").length)) cc tc br
        ca ta ba cn tn bn pid ch cat coat pn sa bk bkr
    else if startsWith (S "Чекпоинты:") s2 then
      let tokens := splitOnChar ';' (s2.drop (S "Чекпоинты:").length)
      let flags := tokens.foldl
        (fun (acc : Bool × Bool × Bool) tok =>
          let tk := strip tok
          if startsWith (S "Критерии=") tk then (chkOk tk, acc.2.1, acc.2.2)
          else if startsWith (S "Тесты=") tk then (acc.1, chkOk tk, acc.2.2)
          else if startsWith (S "Блокеры=") tk then (acc.1, acc.2.1, chkOk tk)
          else acc)
        (cc, tc, br)
      .mk c t sc ts bl flags.1 flags.2.1 flags.2.2 ca ta ba cn tn bn pid ch
        cat coat pn sa bk bkr
    else if startsWith (S "Отметки критериев:") s2 then
      .mk c t sc ts bl cc tc br ca ta ba (parseSemiList (afterColon s2)) tn bn
        pid ch cat coat pn sa bk bkr
    else if startsWith (S "Отметки тестов:") s2 then
      .mk c t sc ts bl cc tc br ca ta ba cn (parseSemiList (afterColon s2)) bn
        pid ch cat coat pn sa bk bkr
    else if startsWith (S "Отметки блокеров:") s2 then
      .mk c t sc ts bl cc tc br ca ta ba cn tn (parseSemiList (afterColon s2))
        pid ch cat coat pn sa bk bkr
    else cur

/-- The `Подзадачи` loop of `_save_section`: `acc` is `task.subtasks` so
far, `cur` the open `current_subtask`. -/
def parseSubtasksGo (acc : List SubTask) (cur : Option SubTask) :
    List Str → List SubTask
  | [] => acc ++ cur.toList
  | line :: rest =>
    match subtaskMatch (strip line) with
    | some (cmp, ttl) =>
      parseSubtasksGo (acc ++ cur.toList) (some (mkNewSub cmp ttl)) rest
    | none =>
      match cur with
      | some st =>
        if startsWith (S "- ") (strip line) then
          parseSubtasksGo acc (some (updateSubDetail st ((strip line).drop 2))) rest
        else parseSubtasksGo acc cur rest
      | none => parseSubtasksGo acc cur rest

/-- `_parse_list`: stripped lines starting `"- "`, minus the marker. -/
def parseListSec (lines : List Str) : List Str :=
  lines.filterMap (fun l =>
    let s := strip l
    if startsWith (S "- ") s then some (s.drop 2) else none)

/-- `_parse_numbered`: stripped lines matching `^\d+\.\s+(.*)`. -/
def parseNumberedSec (lines : List Str) : List Str :=
  lines.filterMap (fun l =>
    let s := strip l
    let d := s.takeWhile Char.isDigit
    if d.isEmpty then none
    else
      match s.drop d.length with
      | '.' :: r2 =>
        if r2.isEmpty || !isPySpace r2.headI then none
        else some (r2.dropWhile isPySpace)
      | _ => none)

/-- `TaskFileParser._save_section`. -/
def saveSection (td : TaskDetail) (sec : Str) (lines : List Str) : TaskDetail :=
  let content := strip (joinSep [ '\n' ] lines)
  if sec = S "Описание" then { td with description := content }
  else if sec = S "Контекст" then { td with context := content }
  else if sec = S "Подзадачи" then
    { td with subtasks := parseSubtasksGo td.subtasks none lines }
  else if sec = S "Критерии успеха" then { td with success_criteria := parseListSec lines }
  else if sec = S "Следующие шаги" then { td with next_steps := parseListSec lines }
  else if sec = S "Зависимости" then { td with dependencies := parseListSec lines }
  else if sec = S "Текущие проблемы" then { td with problems := parseNumberedSec lines }
  else if sec = S "Риски" then { td with risks := parseListSec lines }
  else if sec = S "История" then { td with history := parseListSec lines }
  else td

/-- The `flush()` closure of `TaskFileParser.parse`. -/
def flushSection (td : TaskDetail) (sec : Option Str) (buf : List Str) : TaskDetail :=
  match sec with
  | none => td
  | some s => saveSection td s buf

/-- The section loop of `TaskFileParser.parse` over the body lines. -/
def parseBodyGo (td : TaskDetail) (sec : Option Str) (buf : List Str) :
    List Str → TaskDetail
  | [] => flushSection td sec buf
  | line :: rest =>
    if startsWith (S "## ") line then
      parseBodyGo (flushSection td sec buf) (some (strip (line.drop 3))) [] rest
    else parseBodyGo td sec (buf ++ [line]) rest

/-- The `subtask_project_ids` re-assignment loop of `TaskFileParser.parse`. -/
def assignSubProjIds (td : TaskDetail) (ids : List Str) : TaskDetail :=
  { td with
    subtasks := td.subtasks.enum.map (fun p =>
      match ids.get? p.1 with
      | some sid => if sid.isEmpty then p.2 else p.2.withProjectItemId sid
      | none => p.2) }

/-- `TaskFileParser.parse` on a framed file: build the root from the
preamble, fold the body sections, re-attach subtask project ids, then the
final status recomputation (`progress == 100` and not blocked forces
status `"OK"`).  The `_source_path` / `_source_mtime` assignments are
filesystem bookkeeping threaded by the repository model. -/
def TaskFileParser.parse (fc : FileContent) : TaskDetail :=
  let m := fc.meta
  let task0 : TaskDetail :=
    { id := mgetStr m "id" []
      title := mgetStr m "title" []
      status := mgetStr m "status" (S "FAIL")
      domain := mgetStrOrEmpty m "domain"
      phase := mgetStrOrEmpty m "phase"
      component := mgetStrOrEmpty m "component"
      parent := mgetOptStr m "parent"
      priority := mgetStr m "priority" (S "MEDIUM")
      created := mgetStr m "created" []
      updated := mgetStr m "updated" []
      tags := mgetList m "tags"
      assignee := mgetStr m "assignee" (S "ai")
      progress := mgetInt m "progress"
      blocked := mgetBool m "blocked"
      blockers := mgetList m "blockers"
      project_item_id := mgetOptStr m "project_item_id"
      project_draft_id := mgetOptStr m "project_draft_id"
      project_remote_updated := mgetOptStr m "project_remote_updated"
      project_issue_number := mgetOptStr m "project_issue_number" }
  let task1 := parseBodyGo task0 none [] (splitlines (strip fc.body))
  let task2 := assignSubProjIds task1 (mgetList m "subtask_project_ids")
  if !task2.subtasks.isEmpty && task2.calculate_progress == 100 && !task2.blocked then
    { task2 with status := S "OK" }
  else task2

/-! ## `src/infrastructure/file_repository.py`

The store directory is a finite map from resolved path component lists to
file contents; `tasksDir` is the store root's own (already canonical)
component list. -/

abbrev AbsPath := List Str

abbrev Store := List (AbsPath × FileContent)

def storeGet (s : Store) (p : AbsPath) : Option FileContent :=
  match s with
  | [] => none
  | (q, fc) :: rest => if p = q then some fc else storeGet rest p

def storeSet (s : Store) (p : AbsPath) (fc : FileContent) : Store :=
  match s with
  | [] => [(p, fc)]
  | (q, old) :: rest => if p = q then (p, fc) :: rest else (q, old) :: storeSet rest p fc

def storeErase (s : Store) (p : AbsPath) : Store :=
  s.filter (fun e => e.1 ≠ p)

/-- `_is_reserved_dir`: `".snapshots" in path.parts or ".trash" in path.parts`. -/
def isReservedPath (p : AbsPath) : Bool :=
  p.contains (S ".snapshots") || p.contains (S ".trash")

/-- The component list `pathlib` derives from a domain string: `/`-separated,
empty and single-dot segments collapse away. -/
def domainParts (domain : Str) : List Str :=
  (splitOnChar '/' domain).filter (fun c => !c.isEmpty && c ≠ S ".")

/-- Lexical `Path.resolve()` on components below an already-resolved root:
`.` disappears, `..` pops. -/
def normalizeDots (comps : List Str) : List Str :=
  comps.foldl (fun acc c =>
    if c = S "." then acc
    else if c = S ".." then acc.dropLast
    else acc ++ [c]) []

/-- `FileTaskRepository._resolve_path`: reject traversal characters in the
id, reject absolute or traversing domains, build
`tasks_dir / domain / f"{item_id}.task"`, resolve it, and require the
result to stay inside the store root. -/
def resolvePath (tasksDir : List Str) (item_id : Str) (domain : Str) :
    Except String AbsPath :=
  if hasSub (S "..") item_id || item_id.contains '/' || item_id.contains '\\' then
    .error "Invalid id: contains path traversal characters"
  else if !domain.isEmpty &&
      (hasSub (S "..") domain || startsWith (S "/") domain || domain.contains '\\') then
    .error "Invalid domain: contains path traversal characters"
  else
    let resolved := tasksDir ++ normalizeDots (domainParts domain ++ [item_id ++ S ".task"])
    if tasksDir.isPrefixOf resolved then .ok resolved
    else .error "Path traversal detected"

/-- `FileTaskRepository._assign_domain`: fill an empty in-memory `domain`
from the directory the file was found in. -/
def assignDomain (tasksDir : List Str) (detail : TaskDetail) (path : AbsPath) :
    TaskDetail :=
  if !detail.domain.isEmpty then detail
  else { detail with domain := joinSep (S "/") ((path.drop tasksDir.length).dropLast) }

/-- `FileTaskRepository.load`: direct hit on the resolved path, else the
first `rglob` match named `<task_id>.task` outside `.trash/` and
`.snapshots/` (store order stands in for filesystem traversal order).
The found path (`_source_path` in the source) is returned alongside. -/
def FileTaskRepository.load (tasksDir : List Str) (store : Store)
    (task_id : Str) (domain : Str) :
    Except String (Option (TaskDetail × AbsPath)) :=
  match resolvePath tasksDir task_id domain with
  | .error e => .error e
  | .ok path =>
    match storeGet store path with
    | some fc => .ok (some (assignDomain tasksDir (TaskFileParser.parse fc) path, path))
    | none =>
      match store.find? (fun e =>
          e.1.getLast? = some (task_id ++ S ".task") && !isReservedPath e.1) with
      | some e => .ok (some (assignDomain tasksDir (TaskFileParser.parse e.2) e.1, e.1))
      | none => .ok none

/-- The on-disk revision read back by `FileTaskRepository.save`:
`int(meta.get("revision", 0) or 0)` when the file exists and has a
well-formed preamble, `0` otherwise. -/
def diskRevision (fc : Option FileContent) : Int :=
  match fc with
  | none => 0
  | some f =>
    match mget f.meta "revision" with
    | some (.i n) => n
    | _ => 0

/-- `FileTaskRepository.save`: bump the revision to
`max(0, max(in_memory, on_disk)) + 1`, then write the serialized root. -/
def FileTaskRepository.save (tasksDir : List Str) (store : Store)
    (td : TaskDetail) (now : Str) : Except String (TaskDetail × Store) :=
  match resolvePath tasksDir td.id td.domain with
  | .error e => .error e
  | .ok path =>
    let dr := diskRevision (storeGet store path)
    let td' := { td with revision := max 0 (max td.revision dr) + 1 }
    .ok (td', storeSet store path (TaskDetail.to_file_content td' now))

/-- `FileTaskRepository.move`: load, rewrite the `domain`, save to the new
location, then unlink the old path when it differs from the destination. -/
def FileTaskRepository.move (tasksDir : List Str) (store : Store)
    (task_id : Str) (new_domain : Str) (current_domain : Str) (now : Str) :
    Except String (Bool × Store) :=
  match FileTaskRepository.load tasksDir store task_id current_domain with
  | .error e => .error e
  | .ok none => .ok (false, store)
  | .ok (some (detail, old_path)) =>
    let detail := { detail with domain := new_domain }
    match FileTaskRepository.save tasksDir store detail now with
    | .error e => .error e
    | .ok (_, store₁) =>
      match resolvePath tasksDir task_id new_domain with
      | .error e => .error e
      | .ok dest =>
        let store₂ :=
          if (storeGet store₁ old_path).isSome && old_path ≠ dest then
            storeErase store₁ old_path
          else store₁
        .ok (true, store₂)

/-- Python `Path.stem`: the file name without its last dot-suffix. -/
def pyStem (name : Str) : Str :=
  let parts := splitOnChar '.' name
  if parts.length ≤ 1 then name else joinSep (S ".") parts.dropLast

/-- `rglob(f"{prefix}-*.task")` membership for one file name. -/
def globMatch (pre : Str) (name : Str) : Bool :=
  startsWith (pre ++ [ '-' ]) name && (S ".task").isSuffixOf (name.drop (pre.length + 1))

/-- The numeric suffixes `_next_id_for_prefix` collects:
`int(f.stem.split("-")[1])`, skipping entries that raise `IndexError` or
`ValueError`.  No reserved-directory filter: `.trash/` and `.snapshots/`
are scanned too (the source comments that this keeps IDs monotonic). -/
def collectIds (pre : Str) (store : Store) : List Nat :=
  store.filterMap (fun e =>
    match e.1.getLast? with
    | some name =>
      if globMatch pre name then pyInt ((splitOnChar '-' (pyStem name)).tail.headI)
      else none
    | none => none)

/-- `FileTaskRepository._next_id_for_prefix`. -/
def nextIdForPrefix (pre : Str) (store : Store) : Str :=
  let ids := collectIds pre store
  let next_num := match ids.max? with | some m => m + 1 | none => 1
  pre ++ [ '-' ] ++ pad3 next_num

def FileTaskRepository.next_id (store : Store) : Str := nextIdForPrefix (S "TASK") store

def FileTaskRepository.next_plan_id (store : Store) : Str := nextIdForPrefix (S "PLAN") store

/-- Modelled from the spec: the Manager's soft delete (`delete` in §3
Lifecycle) moves a root's file into the sibling `.trash/` directory of the
same store, keeping the file name; the Manager itself is not part of the
sources.  Only the relocation matters to the claims. -/
def moveToTrash (tasksDir : List Str) (store : Store) (p : AbsPath) : Store :=
  store.map (fun e =>
    if e.1 = p then (tasksDir ++ [S ".trash", p.getLast?.getD []], e.2) else e)

/-! ## `src/core/desktop/devtools/application/context.py` -/

/-- `save_last_task`: the text written to the `.last` focus pointer,
`f"{task_id}@{domain}"`. -/
def saveLastContent (task_id domain : Str) : Str := task_id ++ [ '@' ] ++ domain

/-- `get_last_task` on the `.last` file content (`none` when no candidate
file exists): strip, split on the first `@` when present, map empty parts
to `None`; content without `@` is returned as a bare task id. -/
def getLastTask (file : Option Str) : Option Str × Option Str :=
  match file with
  | none => (none, none)
  | some content =>
    let raw := strip content
    if raw.contains '@' then
      let tid := raw.takeWhile (fun c => !(c == '@'))
      let dom := (raw.dropWhile (fun c => !(c == '@'))).tail
      (if tid.isEmpty then none else some tid,
       if dom.isEmpty then none else some dom)
    else (if raw.isEmpty then none else some raw, none)

/-- `normalize_task_id`: strip + uppercase, reject traversal characters,
then canonicalize `TASK-n` / `PLAN-n` / bare-number forms. -/
def normalize_task_id (raw : Str) : Except String Str :=
  let value := upperAscii (strip raw)
  if hasSub (S "..") value || value.contains '/' || value.contains '\\' then
    .error "Invalid task_id: contains forbidden characters"
  else if startsWith (S "TASK-") value && !(value.drop 5).isEmpty
      && (value.drop 5).all Char.isDigit then
    .ok (S "TASK-" ++ pad3 ((pyInt (value.drop 5)).getD 0))
  else if startsWith (S "PLAN-") value && !(value.drop 5).isEmpty
      && (value.drop 5).all Char.isDigit then
    .ok (S "PLAN-" ++ pad3 ((pyInt (value.drop 5)).getD 0))
  else if !value.isEmpty && value.all Char.isDigit then
    .ok (S "TASK-" ++ pad3 ((pyInt value).getD 0))
  else .ok value

/-! ## The dependency validator

`task_editing.py` imports `validate_dependencies` and
`build_dependency_graph` from `core`, but no module in the sources defines
them.  They are modelled from the spec (§4.3): dep-ids must parse as
`TASK-\d+` and exist (else `INVALID_DEPENDENCIES` with the offending ids),
self-dependency is forbidden (a one-step cycle), and adding X's new edges
must not create a cycle — detected by depth-first traversal from each new
target back towards X, neighbours visited in lexicographic order. -/

/-- Modelled from the spec: §4.3 rule 1, a dep-id parses as `TASK-\d+`. -/
def wellformedDepId (d : Str) : Bool :=
  startsWith (S "TASK-") d && !(d.drop 5).isEmpty && (d.drop 5).all Char.isDigit

abbrev DepGraph := List (Str × List Str)

/-- Modelled from the spec: the current graph `{id → depends_on[]}`. -/
def build_dependency_graph (pairs : List (Str × List Str)) : DepGraph := pairs

/-- Outgoing dependency edges of `v` (first binding wins, like a dict). -/
def neighbors (g : DepGraph) (v : Str) : List Str :=
  match g.find? (fun e => e.1 == v) with
  | some e => e.2
  | none => []

/-- Strict lexicographic order on ids by character code. -/
def lexLt : Str → Str → Bool
  | [], [] => false
  | [], _ :: _ => true
  | _ :: _, [] => false
  | a :: as, b :: bs =>
    if a.toNat < b.toNat then true
    else if a = b then lexLt as bs
    else false

def insertLex (x : Str) : List Str → List Str
  | [] => [x]
  | y :: ys => if lexLt y x then y :: insertLex x ys else x :: y :: ys

/-- Modelled from the spec: the lexicographic tie-break that makes the
reported cycle deterministic. -/
def sortLex : List Str → List Str
  | [] => []
  | x :: xs => insertLex x (sortLex xs)

/-- First successful result over a candidate list. -/
def firstSome (f : α → Option β) : List α → Option β
  | [] => none
  | x :: xs =>
    match f x with
    | some b => some b
    | none => firstSome f xs

/-- Modelled from the spec: fuel-bounded depth-first search for a path from
`cur` to `tgt` in `g`, avoiding `visited`; returns the node list of the
path including both endpoints. -/
def dfsPath (g : DepGraph) (tgt : Str) : Nat → List Str → Str → Option (List Str)
  | 0, _, _ => none
  | fuel + 1, visited, cur =>
    if cur = tgt then some [cur]
    else if visited.contains cur then none
    else
      firstSome
        (fun nb => (dfsPath g tgt fuel (cur :: visited) nb).map (fun p => cur :: p))
        (sortLex (neighbors g cur))

/-- Modelled from the spec: `validate_dependencies(X, new_deps, existing,
graph)` returns `(errors, cycle)`; the reported cycle starts and ends at
the offending new target. -/
def validate_dependencies (x : Str) (new_deps : List Str)
    (existing : List Str) (g : DepGraph) : List Str × Option (List Str) :=
  let errors := new_deps.filter (fun d => !wellformedDepId d || !existing.contains d)
  if !errors.isEmpty then (errors, none)
  else if new_deps.contains x then ([], some [x, x])
  else
    match firstSome
        (fun d => (dfsPath g x (g.length + 1) [] d).map (fun p => (d, p)))
        (sortLex new_deps) with
    | some dp => ([], some (dp.2 ++ [dp.1]))
    | none => ([], none)

structure EditFailure where
  code : String
  message : String
deriving DecidableEq, Repr

inductive DepPayload : Type where
  | errors (v : List Str)
  | cycle (v : List Str)
deriving DecidableEq, Repr

/-- `validate_depends_on_for_step` from `task_editing.py`: empty
replacement lists pass, otherwise the graph over all tasks except the
edited one is validated; `manager.list_all_tasks()` is abstracted as the
`(id, depends_on)` list of all existing tasks. -/
def validate_depends_on_for_step (tasks : List (Str × List Str))
    (step_id : Str) (new_deps : List Str) :
    Option DepPayload × Option EditFailure :=
  if new_deps.isEmpty then (none, none)
  else
    let existing_ids := tasks.map Prod.fst
    let dep_graph := build_dependency_graph (tasks.filter (fun t => t.1 ≠ step_id))
    let r := validate_dependencies step_id new_deps existing_ids dep_graph
    if !r.1.isEmpty then
      (some (.errors r.1), some ⟨"INVALID_DEPENDENCIES", "Invalid dependencies"⟩)
    else
      match r.2 with
      | some c => (some (.cycle c), some ⟨"CIRCULAR_DEPENDENCY", "Circular dependency detected"⟩)
      | none => (none, none)

/-- An edge of the dependency graph. -/
def EdgeG (g : DepGraph) (a b : Str) : Prop := b ∈ neighbors g a

/-- An edge after adding X's candidate `depends_on` edges. -/
def EdgeAug (g : DepGraph) (x : Str) (deps : List Str) (a b : Str) : Prop :=
  EdgeG g a b ∨ (a = x ∧ b ∈ deps)

/-- Adding X's new edges creates a cycle: a closed walk through `x` of at
least one edge in the augmented graph. -/
def CreatesCycle (g : DepGraph) (x : Str) (deps : List Str) : Prop :=
  ∃ p : List Str, p.head? = some x ∧ p.getLast? = some x ∧ 2 ≤ p.length ∧
    p.Chain' (EdgeAug g x deps)

/-- A path witnessing `Str`-node reachability: the node list `p` runs from
`a` to `b` along edges of `g`. -/
def ChainPath (g : DepGraph) (a b : Str) (p : List Str) : Prop :=
  p.head? = some a ∧ p.getLast? = some b ∧ p.Chain' (EdgeG g)

/-- The graph `validate_depends_on_for_step` validates against: all tasks
except the edited one. -/
def stepDepGraph (tasks : List (Str × List Str)) (step_id : Str) : DepGraph :=
  build_dependency_graph (tasks.filter (fun t => t.1 ≠ step_id))

/-! ## Concrete instances used by the claim evaluations -/

/-- A fixed timestamp standing in for `datetime.now(timezone.utc).isoformat()`. -/
def now0 : Str := S "2026-01-01T00:00:00+00:00"

/-- An abstract, already-resolved store root. -/
def dirRoot : List Str := [S ".tasks"]

/-- A root exercising the fields the serializer writes but the parser never
reads: `depends_on`, `events`, `status_manual`, and a checklist item with a
progress note, a started-at timestamp, a blocked line and an auto-confirmed
tests checkpoint. -/
def tdDeps : TaskDetail :=
  { id := S "TASK-001"
    title := S "Example"
    status := S "TODO"
    status_manual := true
    created := S "2025-01-01"
    updated := S "2025-01-02"
    assignee := S "ai"
    depends_on := [S "TASK-002"]
    events := [⟨S "2025-01-02", S "checkpoint", S "ai", S ""⟩]
    subtasks := [SubTask.mk false (S "Sub A") [S "c1"] [] [] false false false
      false true false [] [] [] [] [] none none
      [S "went fine"] (some (S "2025-01-01T10:00:00")) true (S "waiting")] }

/-- A root whose checklist is fully completed while the root-level
success-criteria list is empty. -/
def tdAutoDone : TaskDetail :=
  { id := S "TASK-001"
    title := S "T"
    status := S "FAIL"
    created := S "2025-01-01"
    updated := S "2025-01-02"
    subtasks := [mkNewSub true (S "Done it")] }

/-- A legacy task file without a `revision` preamble key. -/
def legacyFile : FileContent :=
  { meta := [("id", .s (S "TASK-001")), ("title", .s (S "Legacy")),
             ("status", .s (S "TODO")), ("created", .s (S "2025-01-01")),
             ("updated", .s (S "2025-01-01"))]
    body := S "# Legacy" }

def legacyPath : AbsPath := dirRoot ++ [S "TASK-001.task"]

/-- A source file whose preamble has no `created` key: it loads with
`created = ""` and any re-serialization stamps the current time. -/
def fileNoCreated : FileContent :=
  { meta := [("id", .s (S "TASK-001")), ("title", .s (S "X")),
             ("status", .s (S "TODO"))]
    body := S "# X" }

def storeNoCreated : Store := [(dirRoot ++ [S "TASK-001.task"], fileNoCreated)]

/-- A normalized root for the move frame-effect witness: nonempty
timestamps and assignee, a success criterion, and one clean checklist
item, stored under the `old` domain. -/
def tdMove : TaskDetail :=
  { id := S "TASK-005"
    title := S "Move me"
    status := S "TODO"
    domain := S "old"
    created := S "2025-02-01"
    updated := S "2025-02-02"
    assignee := S "ai"
    success_criteria := [S "works"]
    subtasks := [SubTask.mk false (S "Sub B") [S "c1"] [S "t1"] [] false false
      false false false false [] [] [] [] [] none none [] none false []] }

def srcMove : AbsPath := dirRoot ++ [S "old", S "TASK-005.task"]

def storeMove : Store := [(srcMove, TaskDetail.to_file_content tdMove now0)]

/-- A store whose highest `TASK` number lives under `.trash/`. -/
def storeTrash : Store :=
  [(dirRoot ++ [S ".trash", S "TASK-007.task"], legacyFile),
   (dirRoot ++ [S "TASK-002.task"], legacyFile)]

/-- The result of pushing `tdDeps` through the codec once. -/
def tdDepsReparsed : TaskDetail := TaskFileParser.parse (tdDeps.to_file_content now0)

/-- The root loaded from `fileNoCreated`. -/
def tdNoCreated : TaskDetail := TaskFileParser.parse fileNoCreated

/-- The destination file a move of `fileNoCreated` into domain `arch`
writes. -/
def movedNoCreated : FileContent :=
  TaskDetail.to_file_content
    { tdNoCreated with domain := S "arch", revision := 1 } now0

/-- Concrete dependency scenario (spec scenario 4): TASK-001 depends on
TASK-002; editing TASK-002 to depend on TASK-001 closes a cycle. -/
def tasksC5 : List (Str × List Str) :=
  [(S "TASK-001", [S "TASK-002"]), (S "TASK-002", [])]

/-- Candidate replacement `depends_on` list for the concrete scenario. -/
def depsC5 : List Str := [S "TASK-001"]

/-! ## Helper lemmas -/

theorem storeGet_storeSet_self (s : Store) (p : AbsPath) (fc : FileContent) :
    storeGet (storeSet s p fc) p = some fc := by
  induction s with
  | nil => simp [storeSet, storeGet]
  | cons e rest ih =>
    by_cases h : p = e.1
    · simp [storeSet, storeGet, h]
    · simp [storeSet, storeGet, h, ih]

theorem storeGet_storeSet_ne (s : Store) (p q : AbsPath) (fc : FileContent)
    (h : q ≠ p) : storeGet (storeSet s p fc) q = storeGet s q := by
  induction s with
  | nil => simp [storeSet, storeGet, h]
  | cons e rest ih =>
    by_cases h2 : p = e.1
    · subst h2
      simp [storeSet, storeGet, h]
    · by_cases h3 : q = e.1
      · simp [storeSet, storeGet, h2, h3]
      · simp [storeSet, storeGet, h2, h3, ih]

theorem storeGet_storeErase_self (s : Store) (p : AbsPath) :
    storeGet (storeErase s p) p = none := by
  induction s with
  | nil => simp [storeErase, storeGet]
  | cons e rest ih =>
    rw [storeErase, List.filter_cons]
    by_cases h : e.1 = p
    · simpa [h, storeErase] using ih
    · rw [if_pos (by simpa using h)]
      rw [storeGet, if_neg (Ne.symm h)]
      simpa [storeErase] using ih

theorem storeGet_storeErase_ne (s : Store) (p q : AbsPath) (h : q ≠ p) :
    storeGet (storeErase s p) q = storeGet s q := by
  induction s with
  | nil => simp [storeErase, storeGet]
  | cons e rest ih =>
    rw [storeErase, List.filter_cons]
    by_cases h2 : e.1 = p
    · rw [if_neg (by simpa using h2)]
      rw [storeGet, if_neg (h2 ▸ h)]
      simpa [storeErase] using ih
    · rw [if_pos (by simpa using h2)]
      by_cases h3 : q = e.1
      · simp [storeGet, h3]
      · rw [storeGet, if_neg h3, storeGet, if_neg h3]
        simpa [storeErase] using ih

/-- `to_file_content` never reads the in-memory `revision` attribute
(the preamble carries no `revision` key on write). -/
theorem to_file_content_revision_invariant (td : TaskDetail) (r : Int) (now : Str) :
    TaskDetail.to_file_content { td with revision := r } now =
      TaskDetail.to_file_content td now := rfl

/-! ## Claim theorems -/

/-- C8: `Step.ready_for_completion()` returns true iff the step is not
blocked, its criteria checkpoint is confirmed, its tests checkpoint is
confirmed or auto-confirmed, and — when the embedded plan has tasks —
every embedded `TaskNode` is done. -/
theorem C8_ready_for_completion (s : Step) :
    s.ready_for_completion = true ↔
      s.blocked = false ∧ s.criteria_confirmed = true ∧
      (s.tests_confirmed = true ∨ s.tests_auto_confirmed = true) ∧
      (∀ t ∈ s.planTasks, t.is_done = true) := by
  cases s with
  | mk c t sc ts bl cc tc ca ta pn sa bk br plan =>
    cases bk with
    | true =>
      simp [Step.ready_for_completion, Step.blocked]
    | false =>
      cases plan with
      | none =>
        simp [Step.ready_for_completion, Step.blocked, Step.criteria_confirmed,
          Step.tests_confirmed, Step.tests_auto_confirmed, Step.plan,
          Step.planTasks, and_assoc]
      | some p =>
        cases p with
        | mk pt pc ptasks =>
          cases ptasks with
          | nil =>
            simp [Step.ready_for_completion, Step.blocked, Step.criteria_confirmed,
              Step.tests_confirmed, Step.tests_auto_confirmed, Step.plan,
              Step.planTasks, PlanNode.tasks, and_assoc]
          | cons t0 trest =>
            simp [Step.ready_for_completion, Step.blocked, Step.criteria_confirmed,
              Step.tests_confirmed, Step.tests_auto_confirmed, Step.plan,
              Step.planTasks, PlanNode.tasks, List.all_eq_true, and_assoc]

/-- C10: an embedded `TaskNode` without manual status and with no steps is
never auto-done: `calculate_progress()` is `0` (not `100`), so `is_done()`
is false, blocked or not. -/
theorem C10_empty_steps_not_done (t : TaskNode)
    (h1 : t.status_manual = false) (h2 : t.steps = []) :
    t.calculate_progress = 0 ∧ t.is_done = false := by
  cases t with
  | mk ti st bl steps m =>
    simp only [TaskNode.steps] at h2
    simp only [TaskNode.status_manual] at h1
    subst h2
    subst h1
    cases bl with
    | true =>
      simp [TaskNode.calculate_progress, TaskNode.is_done, TaskNode.steps,
        TaskNode.blocked, stepListCount]
    | false =>
      simp [TaskNode.calculate_progress, TaskNode.is_done, TaskNode.steps,
        TaskNode.blocked, TaskNode.status_manual, stepListCount]

theorem C10_empty_steps_not_done_witness :
    (TaskNode.mk (S "Embedded") (S "TODO") false [] false).status_manual = false ∧
    (TaskNode.mk (S "Embedded") (S "TODO") false [] false).steps = [] ∧
    ((TaskNode.mk (S "Embedded") (S "TODO") false [] false).calculate_progress = 0 ∧
     (TaskNode.mk (S "Embedded") (S "TODO") false [] false).is_done = false) :=
  ⟨rfl, rfl, C10_empty_steps_not_done (TaskNode.mk (S "Embedded") (S "TODO") false [] false) rfl rfl⟩

/-- C1: the codec does not round-trip.  `to_file_content` writes
`depends_on`, `events` and `status_manual` into the preamble and emits
`Прогресс` / `Начато` / `Заблокировано` checklist lines and (per the spec)
should carry `AUTO` checkpoint tokens, but `TaskFileParser.parse` reads
none of them, so `parse(write(root.to_file_content()))` loses every one of
these fields: the code contradicts the spec's round-trip contract and the
repository's own round-trip tests. -/
theorem C1_roundtrip_drops_fields :
    tdDepsReparsed.depends_on = [] ∧ tdDeps.depends_on = [S "TASK-002"] ∧
    tdDepsReparsed.events = [] ∧ tdDeps.events ≠ [] ∧
    tdDepsReparsed.status_manual = false ∧ tdDeps.status_manual = true ∧
    tdDepsReparsed.subtasks.map SubTask.progress_notes = [[]] ∧
    tdDeps.subtasks.map SubTask.progress_notes = [[S "went fine"]] ∧
    tdDepsReparsed.subtasks.map SubTask.started_at = [none] ∧
    tdDeps.subtasks.map SubTask.started_at = [some (S "2025-01-01T10:00:00")] ∧
    tdDepsReparsed.subtasks.map SubTask.blocked = [false] ∧
    tdDeps.subtasks.map SubTask.blocked = [true] ∧
    tdDepsReparsed.subtasks.map SubTask.tests_auto_confirmed = [false] ∧
    tdDeps.subtasks.map SubTask.tests_auto_confirmed = [true] ∧
    tdDepsReparsed ≠ tdDeps := by
  refine ⟨rfl, rfl, rfl, by decide, rfl, rfl, rfl, rfl, rfl, rfl, rfl, rfl, rfl, rfl, ?_⟩
  intro h
  exact absurd (congrArg TaskDetail.status_manual h) (by decide)

/-- C2: a root whose checklist is 100% complete acquires status `"OK"` both
from `update_status_from_progress` and on parse even though its root-level
success-criteria list is empty — the code contradicts the spec's DONE
invariant and the repository's own auto-done guard test. -/
theorem C2_done_without_root_criteria :
    tdAutoDone.success_criteria = [] ∧
    tdAutoDone.blocked = false ∧
    tdAutoDone.status_manual = false ∧
    tdAutoDone.update_status_from_progress.progress = 100 ∧
    tdAutoDone.update_status_from_progress.status = S "OK" ∧
    (TaskFileParser.parse (tdAutoDone.to_file_content now0)).success_criteria = [] ∧
    (TaskFileParser.parse (tdAutoDone.to_file_content now0)).status = S "OK" :=
  ⟨rfl, rfl, rfl, rfl, rfl, rfl, rfl⟩

/-- C3: a legacy file without a `revision` key loads as revision 0 and
`FileTaskRepository.save` bumps the in-memory revision to 1, but
`to_file_content` never writes a `revision` key, so the saved file still
has none and a subsequent load yields revision 0 again, not 1 — the code
contradicts the spec and the repository's own revision-persistence test. -/
theorem C3_revision_not_persisted :
    (TaskFileParser.parse legacyFile).revision = 0 ∧
    FileTaskRepository.save dirRoot [(legacyPath, legacyFile)]
        (TaskFileParser.parse legacyFile) now0 =
      .ok ({ TaskFileParser.parse legacyFile with revision := 1 },
           [(legacyPath,
             TaskDetail.to_file_content
               { TaskFileParser.parse legacyFile with revision := 1 } now0)]) ∧
    mget (TaskDetail.to_file_content
        { TaskFileParser.parse legacyFile with revision := 1 } now0).meta
      "revision" = none ∧
    (TaskFileParser.parse (TaskDetail.to_file_content
        { TaskFileParser.parse legacyFile with revision := 1 } now0)).revision = 0 :=
  ⟨rfl, rfl, rfl, rfl⟩

theorem takeWhile_append_of_stop {p : Char → Bool} (l : Str) (c : Char) (r : Str)
    (h : ∀ x ∈ l, p x = true) (hc : p c = false) :
    (l ++ c :: r).takeWhile p = l := by
  induction l with
  | nil => simp [List.takeWhile_cons, hc]
  | cons a as ih =>
    have ha : p a = true := h a (by simp)
    simp only [List.cons_append, List.takeWhile_cons, ha]
    simp [ih (fun x hx => h x (by simp [hx]))]

theorem dropWhile_append_of_stop {p : Char → Bool} (l : Str) (c : Char) (r : Str)
    (h : ∀ x ∈ l, p x = true) (hc : p c = false) :
    (l ++ c :: r).dropWhile p = c :: r := by
  induction l with
  | nil => simp [List.dropWhile_cons, hc]
  | cons a as ih =>
    have ha : p a = true := h a (by simp)
    simp only [List.cons_append, List.dropWhile_cons, ha]
    simp [ih (fun x hx => h x (by simp [hx]))]

/-- C9 counterexample: `.last` content without an `@` is not of the
`"<ID>@<domain>"` form, yet `get_last_task` returns it as the focused task
id instead of "no focus". -/
theorem C9_counterexample_bare_id_is_focus :
    getLastTask (some (S "TASK-001")) = (some (S "TASK-001"), none) ∧
    (getLastTask (some (S "TASK-001"))).1 ≠ none :=
  ⟨rfl, by decide⟩

/-- C9 (amended): `save_last_task` writes the single line
`"<ID>@<domain>"` and it reads back; `get_last_task` yields no focus when
the `.last` file is missing or its stripped content is empty, and no task
id when the part before the first `@` is empty; however content without
any `@` is treated as a legacy bare task id and does yield focus. -/
theorem C9_focus_pointer :
    (∀ tid dom : Str, saveLastContent tid dom = tid ++ '@' :: dom) ∧
    getLastTask none = (none, none) ∧
    (∀ content : Str, strip content = [] → getLastTask (some content) = (none, none)) ∧
    (∀ content : Str, (strip content).contains '@' = true →
      (strip content).takeWhile (fun c => !(c == '@')) = [] →
      (getLastTask (some content)).1 = none) ∧
    (∀ content : Str, (strip content).contains '@' = false → strip content ≠ [] →
      getLastTask (some content) = (some (strip content), none)) ∧
    (∀ tid dom : Str, '@' ∉ tid → strip (tid ++ '@' :: dom) = tid ++ '@' :: dom →
      getLastTask (some (saveLastContent tid dom)) =
        ((if tid.isEmpty then none else some tid),
         (if dom.isEmpty then none else some dom))) := by
  refine ⟨fun tid dom => by simp [saveLastContent], rfl, ?_, ?_, ?_, ?_⟩
  · intro content h
    simp [getLastTask, h]
  · intro content h1 h2
    have hmem : '@' ∈ strip content := List.mem_of_elem_eq_true h1
    simp [getLastTask, hmem, h2]
  · intro content h1 h2
    have hmem : '@' ∉ strip content := by simpa using h1
    simp [getLastTask, hmem, h2]
  · intro tid dom h1 h2
    have htake : (tid ++ '@' :: dom).takeWhile (fun c => !(c == '@')) = tid :=
      takeWhile_append_of_stop tid '@' dom
        (fun x hx => by
          simp only [Bool.not_eq_true']
          exact beq_eq_false_iff_ne.mpr (fun hEq => h1 (hEq ▸ hx)))
        (by simp)
    have hdrop : (tid ++ '@' :: dom).dropWhile (fun c => !(c == '@')) = '@' :: dom :=
      dropWhile_append_of_stop tid '@' dom
        (fun x hx => by
          simp only [Bool.not_eq_true']
          exact beq_eq_false_iff_ne.mpr (fun hEq => h1 (hEq ▸ hx)))
        (by simp)
    have hcont : (tid ++ '@' :: dom).contains '@' = true :=
      List.elem_eq_true_of_mem (by simp)
    simp [getLastTask, saveLastContent, h2, hcont, htake, hdrop]

theorem C9_focus_pointer_witness :
    ('@' ∉ S "TASK-001" ∧
     strip (S "TASK-001" ++ '@' :: S "api") = S "TASK-001" ++ '@' :: S "api") ∧
    (strip (S " ") = ([] : Str)) ∧
    getLastTask (some (S "TASK-001" ++ '@' :: S "api")) = (some (S "TASK-001"), some (S "api")) ∧
    getLastTask (some (S " ")) = (none, none) := by
  refine ⟨⟨by decide, by decide⟩, by decide, ?_, ?_⟩
  · have h := (C9_focus_pointer.2.2.2.2.2) (S "TASK-001") (S "api") (by decide) (by decide)
    simpa [saveLastContent] using h
  · exact (C9_focus_pointer.2.2.1) (S " ") (by decide)

theorem isPrefixOf_nil_eq_false (pre : Str) (c : Char) :
    (pre ++ [c]).isPrefixOf ([] : Str) = false := by
  cases pre <;> rfl

/-- Relocating a file into `.trash/` keeps its name, so the id scan (which
never filters reserved directories) collects the same numeric suffixes. -/
theorem collectIds_moveToTrash (pre : Str) (D : List Str) (store : Store) (p : AbsPath) :
    collectIds pre (moveToTrash D store p) = collectIds pre store := by
  unfold collectIds moveToTrash
  rw [List.filterMap_map]
  apply List.filterMap_congr
  intro e _
  by_cases h : e.1 = p
  · simp only [h, Function.comp_apply, if_pos rfl, if_true]
    cases hp : p.getLast? with
    | none =>
      have heq : D ++ [S ".trash", (none : Option Str).getD []] =
          (D ++ [S ".trash"]) ++ [[]] := by simp
      rw [heq, List.getLast?_concat]
      simp [globMatch, startsWith, isPrefixOf_nil_eq_false]
    | some name =>
      have heq : D ++ [S ".trash", (some name).getD []] =
          (D ++ [S ".trash"]) ++ [name] := by simp
      rw [heq, List.getLast?_concat]
  · simp [h]

/-- C4: `next_id` scans every `TASK-*.task` file — `.trash/` and
`.snapshots/` included — and returns the maximum numeric suffix plus one;
moving any file (in particular the root holding the maximum) into
`.trash/` leaves the next allocated id unchanged at `max + 1`. -/
theorem C4_next_id_monotonic (D : List Str) (store : Store) (p : AbsPath) (n : Nat)
    (hmax : (collectIds (S "TASK") store).max? = some n) :
    FileTaskRepository.next_id store = S "TASK" ++ '-' :: pad3 (n + 1) ∧
    FileTaskRepository.next_id (moveToTrash D store p) = S "TASK" ++ '-' :: pad3 (n + 1) ∧
    n ∈ collectIds (S "TASK") store ∧
    (∀ i ∈ collectIds (S "TASK") store, i ≤ n) := by
  have hspec := List.max?_eq_some_iff'.mp hmax
  refine ⟨?_, ?_, hspec.1, hspec.2⟩
  · simp [FileTaskRepository.next_id, nextIdForPrefix, hmax]
  · simp [FileTaskRepository.next_id, nextIdForPrefix, collectIds_moveToTrash, hmax]

theorem C4_next_id_monotonic_witness :
    (collectIds (S "TASK") storeTrash).max? = some 7 ∧
    FileTaskRepository.next_id storeTrash = S "TASK" ++ '-' :: pad3 8 ∧
    FileTaskRepository.next_id
        (moveToTrash dirRoot storeTrash (dirRoot ++ [S "TASK-002.task"])) =
      S "TASK" ++ '-' :: pad3 8 ∧
    FileTaskRepository.next_id storeTrash = S "TASK-008" := by
  have h := C4_next_id_monotonic dirRoot storeTrash (dirRoot ++ [S "TASK-002.task"]) 7 (by decide)
  exact ⟨by decide, h.1, h.2.1, by decide⟩

/-- C6: by-ID repository operations resolve paths through `_resolve_path`,
which raises — before any store access — for ids containing `..`, `/` or
`\` and for domains that are absolute or contain `..` (or `\`), and every
accepted input resolves to a path lying within the store root;
`normalize_task_id` likewise raises on traversal characters. -/
theorem C6_path_traversal_safety (D : List Str) (item_id domain raw : Str) :
    ((hasSub (S "..") item_id || item_id.contains '/' || item_id.contains '\\') = true →
      resolvePath D item_id domain = .error "Invalid id: contains path traversal characters") ∧
    (domain ≠ [] →
      (hasSub (S "..") domain || startsWith (S "/") domain || domain.contains '\\') = true →
      (resolvePath D item_id domain).isOk = false) ∧
    ((hasSub (S "..") item_id || item_id.contains '/' || item_id.contains '\\') = false →
      (hasSub (S "..") domain || startsWith (S "/") domain || domain.contains '\\') = false →
      resolvePath D item_id domain =
        .ok (D ++ normalizeDots (domainParts domain ++ [item_id ++ S ".task"]))) ∧
    (∀ p, resolvePath D item_id domain = .ok p → D <+: p) ∧
    ((hasSub (S "..") (upperAscii (strip raw)) ||
      (upperAscii (strip raw)).contains '/' ||
      (upperAscii (strip raw)).contains '\\') = true →
      (normalize_task_id raw).isOk = false) := by
  refine ⟨?_, ?_, ?_, ?_, ?_⟩
  · intro h
    unfold resolvePath
    rw [if_pos h]
  · intro hne h
    have hd : domain.isEmpty = false := by
      cases domain with
      | nil => exact absurd rfl hne
      | cons a as => rfl
    unfold resolvePath
    by_cases hid : (hasSub (S "..") item_id || item_id.contains '/' || item_id.contains '\\') = true
    · rw [if_pos hid]
      rfl
    · rw [if_neg hid, if_pos (by rw [Bool.and_eq_true]; exact ⟨by simp [hd], h⟩)]
      rfl
  · intro h1 h2
    have hpre : D.isPrefixOf
        (D ++ normalizeDots (domainParts domain ++ [item_id ++ S ".task"])) = true :=
      List.isPrefixOf_iff_prefix.mpr (List.prefix_append _ _)
    unfold resolvePath
    rw [if_neg (by simp_all), if_neg (by simp_all)]
    show (if D.isPrefixOf
        (D ++ normalizeDots (domainParts domain ++ [item_id ++ S ".task"])) = true then
        Except.ok (D ++ normalizeDots (domainParts domain ++ [item_id ++ S ".task"]))
      else Except.error "Path traversal detected") = _
    rw [if_pos hpre]
  · intro p hp
    unfold resolvePath at hp
    split at hp
    · simp at hp
    · split at hp
      · simp at hp
      · dsimp only at hp
        split at hp
        · rw [Except.ok.injEq] at hp
          subst hp
          exact List.prefix_append _ _
        · simp at hp
  · intro h
    unfold normalize_task_id
    rw [if_pos (by exact h)]
    rfl

theorem C6_path_traversal_safety_witness :
    resolvePath dirRoot (S "..") (S "") =
      .error "Invalid id: contains path traversal characters" ∧
    (resolvePath dirRoot (S "TASK-001") (S "/etc")).isOk = false ∧
    resolvePath dirRoot (S "TASK-001") (S "api/v2") =
      .ok (dirRoot ++ [S "api", S "v2", S "TASK-001.task"]) ∧
    dirRoot <+: dirRoot ++ [S "api", S "v2", S "TASK-001.task"] ∧
    (normalize_task_id (S "../evil")).isOk = false := by
  refine ⟨?_, ?_, ?_, List.prefix_append _ _, ?_⟩
  · exact (C6_path_traversal_safety dirRoot (S "..") (S "") (S "")).1 (by decide)
  · exact (C6_path_traversal_safety dirRoot (S "TASK-001") (S "/etc") (S "")).2.1
      (by decide) (by decide)
  · have h := (C6_path_traversal_safety dirRoot (S "TASK-001") (S "api/v2") (S "")).2.2.1
      (by decide) (by decide)
    exact h.trans (by rfl)
  · exact (C6_path_traversal_safety dirRoot (S "..") (S "") (S "../evil")).2.2.2.2 (by decide)

/-- C7 counterexample: a successful `move` of a root whose file has no
`created` preamble key rewrites `created` to the current timestamp, so the
destination root differs from the source root in a field other than
`domain`. -/
theorem C7_counterexample_created_changes :
    FileTaskRepository.move dirRoot storeNoCreated (S "TASK-001") (S "arch") (S "") now0 =
      .ok (true, [(dirRoot ++ [S "arch", S "TASK-001.task"], movedNoCreated)]) ∧
    tdNoCreated.created = [] ∧
    (TaskFileParser.parse movedNoCreated).created = now0 ∧
    now0 ≠ [] :=
  ⟨rfl, rfl, rfl, by decide⟩

/-- C7 (amended): after a successful `move(id, new_domain)` of a root the
codec round-trips (with its domain replaced), the source path no longer
holds a file, the destination path holds the re-serialized root, and the
root parsed back from the destination equals the loaded source root in
every field other than `domain`; the destination is written by `save`
while the source file still exists and only then is the source unlinked. -/
theorem C7_move_frame_effect
    (D : List Str) (store : Store) (id curDom newDom now : Str)
    (td : TaskDetail) (src dest : AbsPath)
    (hload : FileTaskRepository.load D store id curDom = .ok (some (td, src)))
    (hid : td.id = id)
    (hdest : resolvePath D id newDom = .ok dest)
    (hne : dest ≠ src)
    (hsome : (storeGet store src).isSome = true)
    (hrt : TaskFileParser.parse
        (TaskDetail.to_file_content { td with domain := newDom } now) =
      { td with domain := newDom }) :
    ∃ s₁ : Store, ∃ r : Int,
      FileTaskRepository.save D store { td with domain := newDom } now =
        .ok ({ td with domain := newDom, revision := r }, s₁) ∧
      storeGet s₁ src = storeGet store src ∧
      storeGet s₁ dest =
        some (TaskDetail.to_file_content { td with domain := newDom } now) ∧
      FileTaskRepository.move D store id newDom curDom now =
        .ok (true, storeErase s₁ src) ∧
      storeGet (storeErase s₁ src) src = none ∧
      storeGet (storeErase s₁ src) dest =
        some (TaskDetail.to_file_content { td with domain := newDom } now) ∧
      TaskFileParser.parse
          (TaskDetail.to_file_content { td with domain := newDom } now) =
        { td with domain := newDom } := by
  have hres : resolvePath D td.id newDom = .ok dest := by
    rw [hid]
    exact hdest
  have hsaveEq : FileTaskRepository.save D store { td with domain := newDom } now =
      .ok ({ td with domain := newDom, revision := max 0 (max td.revision (diskRevision (storeGet store dest))) + 1 },
           storeSet store dest
             (TaskDetail.to_file_content { td with domain := newDom } now)) := by
    simp only [FileTaskRepository.save, hres]
    rfl
  refine ⟨storeSet store dest
      (TaskDetail.to_file_content { td with domain := newDom } now),
    max 0 (max td.revision (diskRevision (storeGet store dest))) + 1,
    hsaveEq, ?hkeep, ?hdest1, ?hmove, ?hgone, ?hthere, hrt⟩
  case hkeep =>
    exact storeGet_storeSet_ne store dest src _ (Ne.symm hne)
  case hdest1 =>
    exact storeGet_storeSet_self store dest _
  case hmove =>
    have hcond : ((storeGet (storeSet store dest
        (TaskDetail.to_file_content { td with domain := newDom } now)) src).isSome &&
        decide (src ≠ dest)) = true := by
      rw [storeGet_storeSet_ne store dest src _ (Ne.symm hne)]
      simp [hsome, Ne.symm hne]
    simp only [FileTaskRepository.move, hload, hsaveEq, hdest, hcond, if_true]
  case hgone =>
    exact storeGet_storeErase_self _ _
  case hthere =>
    rw [storeGet_storeErase_ne _ _ _ hne]
    exact storeGet_storeSet_self store dest _

theorem C7_move_frame_effect_witness :
    FileTaskRepository.load dirRoot storeMove (S "TASK-005") (S "old") =
      .ok (some (tdMove, srcMove)) ∧
    tdMove.id = S "TASK-005" ∧
    resolvePath dirRoot (S "TASK-005") (S "neu") =
      .ok (dirRoot ++ [S "neu", S "TASK-005.task"]) ∧
    (∃ s₁ : Store, ∃ r : Int,
      FileTaskRepository.save dirRoot storeMove { tdMove with domain := S "neu" } now0 =
        .ok ({ tdMove with domain := S "neu", revision := r }, s₁) ∧
      storeGet s₁ srcMove = storeGet storeMove srcMove ∧
      storeGet s₁ (dirRoot ++ [S "neu", S "TASK-005.task"]) =
        some (TaskDetail.to_file_content { tdMove with domain := S "neu" } now0) ∧
      FileTaskRepository.move dirRoot storeMove (S "TASK-005") (S "neu") (S "old") now0 =
        .ok (true, storeErase s₁ srcMove) ∧
      storeGet (storeErase s₁ srcMove) srcMove = none ∧
      storeGet (storeErase s₁ srcMove) (dirRoot ++ [S "neu", S "TASK-005.task"]) =
        some (TaskDetail.to_file_content { tdMove with domain := S "neu" } now0) ∧
      TaskFileParser.parse
          (TaskDetail.to_file_content { tdMove with domain := S "neu" } now0) =
        { tdMove with domain := S "neu" }) :=
  ⟨rfl, rfl, rfl,
   C7_move_frame_effect dirRoot storeMove (S "TASK-005") (S "old") (S "neu") now0
     tdMove srcMove (dirRoot ++ [S "neu", S "TASK-005.task"])
     rfl rfl rfl (by decide) rfl rfl⟩

/-! ## Dependency-validator lemmas -/

theorem insertLex_mem (x y : Str) (l : List Str) :
    y ∈ insertLex x l ↔ y = x ∨ y ∈ l := by
  induction l with
  | nil => simp [insertLex]
  | cons a as ih =>
    by_cases h : lexLt a x
    · simp only [insertLex, h, if_true, List.mem_cons, ih]
      tauto
    · simp only [insertLex, h, if_false, Bool.false_eq_true, List.mem_cons]

theorem sortLex_mem (x : Str) (l : List Str) : x ∈ sortLex l ↔ x ∈ l := by
  induction l with
  | nil => simp [sortLex]
  | cons a as ih =>
    simp [sortLex, insertLex_mem, ih]

theorem firstSome_eq_some {α β : Type} (f : α → Option β) (l : List α) (b : β)
    (h : firstSome f l = some b) : ∃ x ∈ l, f x = some b := by
  induction l with
  | nil => simp [firstSome] at h
  | cons a as ih =>
    rw [firstSome] at h
    cases hf : f a with
    | some v =>
      rw [hf] at h
      cases h
      exact ⟨a, by simp, hf⟩
    | none =>
      rw [hf] at h
      obtain ⟨x, hx, hfx⟩ := ih h
      exact ⟨x, by simp [hx], hfx⟩

theorem firstSome_isSome {α β : Type} (f : α → Option β) (l : List α)
    (h : ∃ x ∈ l, (f x).isSome = true) : (firstSome f l).isSome = true := by
  induction l with
  | nil => simp at h
  | cons a as ih =>
    rw [firstSome]
    cases hf : f a with
    | some v => rfl
    | none =>
      apply ih
      obtain ⟨x, hx, hfx⟩ := h
      rcases List.mem_cons.mp hx with rfl | hx2
      · rw [hf] at hfx
        simp at hfx
      · exact ⟨x, hx2, hfx⟩

/-- An edge source always appears as a key of the graph. -/
theorem edgeG_source_mem (g : DepGraph) (a b : Str) (h : EdgeG g a b) :
    a ∈ g.map Prod.fst := by
  unfold EdgeG neighbors at h
  cases hf : g.find? (fun e => e.1 == a) with
  | none => rw [hf] at h; simp at h
  | some e =>
    have hmem := List.mem_of_find?_eq_some hf
    have hp := List.find?_some hf
    have : e.1 = a := by simpa using hp
    subst this
    exact List.mem_map.mpr ⟨e, hmem, rfl⟩

/-- The validated graph has no outgoing edges at the edited task. -/
theorem neighbors_stepDepGraph_self (tasks : List (Str × List Str)) (x : Str) :
    neighbors (stepDepGraph tasks x) x = [] := by
  unfold neighbors stepDepGraph build_dependency_graph
  cases hf : (tasks.filter (fun t => t.1 ≠ x)).find? (fun e => e.1 == x) with
  | none => rfl
  | some e =>
    have hmem := List.mem_of_find?_eq_some hf
    have hp : e.1 = x := by simpa using List.find?_some hf
    have := List.of_mem_filter hmem
    simp [hp] at this

/-- Soundness of the depth-first search: a returned node list is a path
from `cur` to `tgt` in the graph. -/
theorem dfsPath_sound (g : DepGraph) (tgt : Str) :
    ∀ (fuel : Nat) (visited : List Str) (cur : Str) (p : List Str),
    dfsPath g tgt fuel visited cur = some p → ChainPath g cur tgt p := by
  intro fuel
  induction fuel with
  | zero => intro visited cur p h; simp [dfsPath] at h
  | succ n ih =>
    intro visited cur p h
    rw [dfsPath] at h
    by_cases hc : cur = tgt
    · rw [if_pos hc] at h
      cases h
      subst hc
      exact ⟨rfl, rfl, List.chain'_singleton _⟩
    · rw [if_neg hc] at h
      by_cases hv : visited.contains cur = true
      · rw [if_pos hv] at h
        simp at h
      · rw [if_neg hv] at h
        obtain ⟨nb, hnb, hfnb⟩ := firstSome_eq_some _ _ _ h
        cases hq : dfsPath g tgt n (cur :: visited) nb with
        | none => rw [hq] at hfnb; simp at hfnb
        | some q =>
          rw [hq] at hfnb
          simp only [Option.map_some'] at hfnb
          cases hfnb
          obtain ⟨hhead, hlast, hchain⟩ := ih (cur :: visited) nb q hq
          refine ⟨rfl, ?_, ?_⟩
          · cases q with
            | nil => simp at hhead
            | cons q0 qs => simpa using hlast
          · rw [List.chain'_cons']
            refine ⟨?_, hchain⟩
            intro y hy
            rw [hhead] at hy
            simp only [Option.mem_some_iff] at hy
            subst hy
            exact (sortLex_mem _ _).mp hnb

/-- Any path to `x` in the augmented graph yields a path in the plain
graph, because `x` has no outgoing plain edges. -/
theorem augPath_to_gPath (g : DepGraph) (x : Str) (deps : List Str)
    (hx : neighbors g x = []) :
    ∀ (q : List Str) (a : Str), q.Chain' (EdgeAug g x deps) →
      q.head? = some a → q.getLast? = some x →
      ∃ q2, ChainPath g a x q2 := by
  intro q
  induction q with
  | nil => intro a _ hh _; simp at hh
  | cons b t ih =>
    intro a hchain hhead hlast
    have hb : b = a := by simpa using hhead
    subst hb
    by_cases hax : b = x
    · subst hax
      exact ⟨[b], rfl, rfl, List.chain'_singleton _⟩
    · cases t with
      | nil =>
        simp at hlast
        exact absurd hlast hax
      | cons c t2 =>
        have hparts := List.chain'_cons'.mp hchain
        have hedge : EdgeAug g x deps b c := hparts.1 c rfl
        have hg : EdgeG g b c := by
          rcases hedge with h | ⟨hax2, _⟩
          · exact h
          · exact absurd hax2 hax
        have hlast2 : (c :: t2).getLast? = some x := by simpa using hlast
        obtain ⟨q2, hh2, hl2, hc2⟩ := ih c hparts.2 rfl hlast2
        refine ⟨b :: q2, rfl, ?_, ?_⟩
        · cases q2 with
          | nil => simp at hh2
          | cons z zs => simpa using hl2
        · rw [List.chain'_cons']
          refine ⟨?_, hc2⟩
          intro y hy
          rw [hh2] at hy
          simp only [Option.mem_some_iff] at hy
          subst hy
          exact hg

/-- A list with a duplicate splits around the repeated element. -/
theorem not_nodup_split (p : List Str) (h : ¬p.Nodup) :
    ∃ l x m r, p = l ++ x :: m ++ x :: r := by
  induction p with
  | nil => exact absurd List.nodup_nil h
  | cons y q ih =>
    by_cases hy : y ∈ q
    · obtain ⟨m, r, hq⟩ := List.append_of_mem hy
      exact ⟨[], y, m, r, by simp [hq]⟩
    · have hq : ¬q.Nodup := fun hn => h (List.nodup_cons.mpr ⟨hy, hn⟩)
      obtain ⟨l, x, m, r, hsplit⟩ := ih hq
      exact ⟨y :: l, x, m, r, by simp [hsplit]⟩

/-- Cutting out the loop between two occurrences of the same node keeps a
valid path with the same endpoints. -/
theorem chainPath_splice (g : DepGraph) (a b x : Str) (l m r : List Str)
    (h : ChainPath g a b (l ++ x :: m ++ x :: r)) :
    ChainPath g a b (l ++ x :: r) := by
  obtain ⟨hh, hl, hc⟩ := h
  refine ⟨?_, ?_, ?_⟩
  · cases l with
    | nil => simpa using hh
    | cons l0 ls => simpa using hh
  · rw [List.getLast?_append_cons] at hl ⊢
    exact hl
  · have e1 : l ++ x :: m ++ x :: r = (l ++ [x]) ++ (m ++ x :: r) := by simp
    rw [e1, List.chain'_append] at hc
    obtain ⟨hcl, hcmr, hlink⟩ := hc
    have e2 : m ++ x :: r = (m ++ [x]) ++ r := by simp
    rw [e2, List.chain'_append] at hcmr
    obtain ⟨hcm, hcr, hlink2⟩ := hcmr
    have e3 : l ++ x :: r = (l ++ [x]) ++ r := by simp
    rw [e3, List.chain'_append]
    refine ⟨hcl, hcr, ?_⟩
    intro y hy z hz
    rw [List.getLast?_concat] at hy
    simp only [Option.mem_some_iff] at hy
    subst hy
    refine hlink2 x ?_ z hz
    rw [List.getLast?_concat]
    rfl

/-- Every path shortens to a duplicate-free path with the same endpoints. -/
theorem chainPath_shorten (g : DepGraph) (a b : Str) :
    ∀ (n : Nat) (p : List Str), p.length ≤ n → ChainPath g a b p →
      ∃ q, ChainPath g a b q ∧ q.Nodup := by
  intro n
  induction n with
  | zero =>
    intro p hlen hp
    obtain ⟨hh, _, _⟩ := hp
    cases p with
    | nil => simp at hh
    | cons p0 ps => simp at hlen
  | succ k ih =>
    intro p hlen hp
    by_cases hn : p.Nodup
    · exact ⟨p, hp, hn⟩
    · obtain ⟨l, x, m, r, rfl⟩ := not_nodup_split p hn
      refine ih (l ++ x :: r) ?_ (chainPath_splice g a b x l m r hp)
      have h1 : (l ++ x :: m ++ x :: r).length = l.length + m.length + r.length + 2 := by
        simp
        omega
      have h2 : (l ++ x :: r).length = l.length + r.length + 1 := by
        simp
        omega
      omega

/-- Every non-final node of a plain path is a key of the graph. -/
theorem chain_sources_mem (g : DepGraph) :
    ∀ (q : List Str), q.Chain' (EdgeG g) → ∀ y ∈ q.dropLast, y ∈ g.map Prod.fst := by
  intro q
  induction q with
  | nil => simp
  | cons a t ih =>
    intro hc y hy
    cases t with
    | nil => simp at hy
    | cons c t2 =>
      have hparts := List.chain'_cons'.mp hc
      rcases List.mem_cons.mp (by simpa using hy) with rfl | hy2
      · exact edgeG_source_mem g _ c (hparts.1 c rfl)
      · exact ih hparts.2 y (by simpa using hy2)

/-- A duplicate-free path is at most one longer than the number of graph
keys. -/
theorem nodup_chainPath_length_le (g : DepGraph) (a b : Str) (q : List Str)
    (hq : ChainPath g a b q) (hnd : q.Nodup) : q.length ≤ g.length + 1 := by
  have hsub : ∀ y ∈ q.dropLast, y ∈ g.map Prod.fst := chain_sources_mem g q hq.2.2
  have hnd2 : q.dropLast.Nodup := List.Nodup.sublist (List.dropLast_sublist q) hnd
  have hle := (List.Nodup.subperm hnd2 (fun y hy => hsub y hy)).length_le
  rw [List.length_map] at hle
  have hdl : q.dropLast.length = q.length - 1 := List.length_dropLast q
  omega

/-- Completeness of the depth-first search: if a duplicate-free path from
`cur` to `tgt` avoids the visited set and fits in the fuel, the search
succeeds. -/
theorem dfsPath_complete (g : DepGraph) (tgt : Str) :
    ∀ (fuel : Nat) (visited : List Str) (cur : Str) (p : List Str),
      ChainPath g cur tgt p → p.Nodup → p.length ≤ fuel →
      (∀ v ∈ p, v ∉ visited) → (dfsPath g tgt fuel visited cur).isSome = true := by
  intro fuel
  induction fuel with
  | zero =>
    intro visited cur p hp _ hlen _
    obtain ⟨hh, _, _⟩ := hp
    cases p with
    | nil => simp at hh
    | cons p0 ps => simp at hlen
  | succ k ih =>
    intro visited cur p hp hnd hlen hvis
    rw [dfsPath]
    by_cases hc : cur = tgt
    · rw [if_pos hc]
      rfl
    · rw [if_neg hc]
      obtain ⟨hh, hl, hchain⟩ := hp
      cases p with
      | nil => simp at hh
      | cons p0 ps =>
        have hp0 : p0 = cur := by simpa using hh
        subst hp0
        have hcnv : p0 ∉ visited := hvis p0 (by simp)
        rw [if_neg (by simpa using hcnv)]
        cases ps with
        | nil =>
          simp at hl
          exact absurd hl hc
        | cons nb t =>
          apply firstSome_isSome
          have hparts := List.chain'_cons'.mp hchain
          refine ⟨nb, ?_, ?_⟩
          · exact (sortLex_mem nb _).mpr (hparts.1 nb rfl)
          · rw [Option.isSome_map']
            have hndp := List.nodup_cons.mp hnd
            refine ih (p0 :: visited) nb (nb :: t) ⟨rfl, by simpa using hl, hparts.2⟩
              hndp.2 (by simpa using hlen) ?_
            intro v hv
            rw [List.mem_cons]
            push_neg
            constructor
            · intro hveq
              exact hndp.1 (hveq ▸ hv)
            · exact hvis v (by simp [hv])

/-- The modelled validator reports a cycle exactly when adding X's edges
creates one, and the reported cycle is a closed walk of the augmented
graph. -/
theorem validate_dependencies_spec
    (x : Str) (deps : List Str) (existing : List Str) (g : DepGraph)
    (hx : neighbors g x = [])
    (hfilter : deps.filter (fun d => !wellformedDepId d || !existing.contains d) = []) :
    (validate_dependencies x deps existing g).1 = [] ∧
    ((validate_dependencies x deps existing g).2 ≠ none ↔ CreatesCycle g x deps) ∧
    (∀ c, (validate_dependencies x deps existing g).2 = some c →
      c.Chain' (EdgeAug g x deps) ∧ c.head? = c.getLast? ∧ 2 ≤ c.length) := by
  unfold validate_dependencies
  rw [hfilter]
  simp only [List.isEmpty_nil, Bool.not_true, Bool.false_eq_true, if_false]
  by_cases hself : deps.contains x = true
  · rw [if_pos hself]
    have hxdeps : x ∈ deps := List.mem_of_elem_eq_true hself
    have hchain : ([x, x] : List Str).Chain' (EdgeAug g x deps) := by
      rw [List.chain'_cons']
      exact ⟨fun y hy => by
        simp only [List.head?_cons, Option.mem_some_iff] at hy
        subst hy
        exact Or.inr ⟨rfl, hxdeps⟩, List.chain'_singleton _⟩
    refine ⟨rfl, ⟨fun _ => ⟨[x, x], rfl, rfl, by simp, hchain⟩, fun _ => by simp⟩, ?_⟩
    intro c hc
    cases hc
    exact ⟨hchain, rfl, by simp⟩
  · rw [if_neg hself]
    cases hfs : firstSome
        (fun d => (dfsPath g x (g.length + 1) [] d).map (fun p => (d, p)))
        (sortLex deps) with
    | some dp =>
      obtain ⟨d, hd, hfd⟩ := firstSome_eq_some _ _ _ hfs
      cases hq : dfsPath g x (g.length + 1) [] d with
      | none => rw [hq] at hfd; simp at hfd
      | some p =>
        rw [hq] at hfd
        simp only [Option.map_some', Option.some.injEq] at hfd
        subst hfd
        have hd2 : d ∈ deps := (sortLex_mem _ _).mp hd
        obtain ⟨hph, hpl, hpc⟩ := dfsPath_sound g x _ [] d p hq
        have hpne : p ≠ [] := by
          intro hnil
          rw [hnil] at hph
          simp at hph
        have haug : p.Chain' (EdgeAug g x deps) := hpc.imp (fun a b h => Or.inl h)
        refine ⟨rfl, ⟨fun _ => ?_, fun _ => by simp⟩, ?_⟩
        · refine ⟨x :: p, rfl, ?_, ?_, ?_⟩
          · cases p with
            | nil => exact absurd rfl hpne
            | cons q0 qs => simpa using hpl
          · cases p with
            | nil => exact absurd rfl hpne
            | cons q0 qs => simp
          · rw [List.chain'_cons']
            refine ⟨?_, haug⟩
            intro y hy
            rw [hph] at hy
            simp only [Option.mem_some_iff] at hy
            subst hy
            exact Or.inr ⟨rfl, hd2⟩
        · intro c hc
          cases hc
          refine ⟨?_, ?_, ?_⟩
          · rw [List.chain'_append]
            refine ⟨haug, List.chain'_singleton _, ?_⟩
            intro y hy z hz
            rw [hpl] at hy
            simp only [Option.mem_some_iff] at hy
            simp only [List.head?_cons, Option.mem_some_iff] at hz
            subst hy
            subst hz
            exact Or.inr ⟨rfl, hd2⟩
          · rw [List.getLast?_concat]
            cases p with
            | nil => exact absurd rfl hpne
            | cons q0 qs =>
              have : q0 = d := by simpa using hph
              subst this
              simp
          · cases p with
            | nil => exact absurd rfl hpne
            | cons q0 qs => simp
    | none =>
      refine ⟨rfl, ⟨fun h => absurd rfl h, fun hcc => ?_⟩, fun c hc => by cases hc⟩
      exfalso
      obtain ⟨p, hh, hl, hlen, hchain⟩ := hcc
      cases p with
      | nil => simp at hh
      | cons p0 rest =>
        have hp0 : p0 = x := by simpa using hh
        subst hp0
        cases rest with
        | nil => simp at hlen
        | cons p1 rest2 =>
          have hparts := List.chain'_cons'.mp hchain
          have hedge : EdgeAug g p0 deps p0 p1 := hparts.1 p1 rfl
          have hp1 : p1 ∈ deps := by
            rcases hedge with h | ⟨_, hmem⟩
            · unfold EdgeG at h
              rw [hx] at h
              simp at h
            · exact hmem
          have hlast2 : (p1 :: rest2).getLast? = some p0 := by simpa using hl
          obtain ⟨q2, hq2⟩ := augPath_to_gPath g p0 deps hx (p1 :: rest2) p1
            hparts.2 rfl hlast2
          obtain ⟨q3, hq3, hq3nd⟩ := chainPath_shorten g p1 p0 q2.length q2 le_rfl hq2
          have hbound := nodup_chainPath_length_le g p1 p0 q3 hq3 hq3nd
          have hsome := dfsPath_complete g p0 (g.length + 1) [] p1 q3 hq3 hq3nd
            hbound (fun v _ => List.not_mem_nil v)
          have hmem : p1 ∈ sortLex deps := (sortLex_mem _ _).mpr hp1
          have := firstSome_isSome
            (fun d => (dfsPath g p0 (g.length + 1) [] d).map (fun p => (d, p)))
            (sortLex deps) ⟨p1, hmem, by rw [Option.isSome_map']; exact hsome⟩
          rw [hfs] at this
          simp at this

/-- C5: for every dependency graph over existing tasks and every candidate
`depends_on` replacement for task X whose IDs are all well-formed and
existing, `validate_depends_on_for_step` fails iff adding X's new edges
creates a cycle in the directed graph; any failure carries the code
CIRCULAR_DEPENDENCY, and the reported cycle is a concrete closed walk of
the augmented graph. -/
theorem C5_dependency_cycle_validation
    (tasks : List (Str × List Str)) (step_id : Str) (new_deps : List Str)
    (hwf : ∀ d ∈ new_deps, wellformedDepId d = true ∧ d ∈ tasks.map Prod.fst) :
    ((validate_depends_on_for_step tasks step_id new_deps).2 ≠ none ↔
      CreatesCycle (stepDepGraph tasks step_id) step_id new_deps) ∧
    (∀ f, (validate_depends_on_for_step tasks step_id new_deps).2 = some f →
      f.code = "CIRCULAR_DEPENDENCY") ∧
    (∀ c, (validate_depends_on_for_step tasks step_id new_deps).1 =
        some (DepPayload.cycle c) →
      c.Chain' (EdgeAug (stepDepGraph tasks step_id) step_id new_deps) ∧
      c.head? = c.getLast? ∧ 2 ≤ c.length) := by
  cases new_deps with
  | nil =>
    refine ⟨⟨fun h => absurd rfl h, fun hcc => ?_⟩,
      fun f hf => Option.noConfusion hf, fun c hc => Option.noConfusion hc⟩
    exfalso
    obtain ⟨p, hh, hl, hlen, hchain⟩ := hcc
    cases p with
    | nil => simp at hh
    | cons p0 rest =>
      have hp0 : p0 = step_id := by simpa using hh
      subst hp0
      cases rest with
      | nil => simp at hlen
      | cons p1 rest2 =>
        have hedge : EdgeAug (stepDepGraph tasks p0) p0 [] p0 p1 :=
          (List.chain'_cons'.mp hchain).1 p1 rfl
        rcases hedge with h | ⟨_, hmem⟩
        · unfold EdgeG at h
          rw [neighbors_stepDepGraph_self] at h
          simp at h
        · simp at hmem
  | cons d0 ds =>
    have hfilter : (d0 :: ds).filter
        (fun d => !wellformedDepId d || !(tasks.map Prod.fst).contains d) = [] := by
      rw [List.filter_eq_nil_iff]
      intro d hd
      obtain ⟨hw, hm⟩ := hwf d hd
      have hc : (tasks.map Prod.fst).contains d = true := List.elem_eq_true_of_mem hm
      intro hcontra
      rw [hw, hc] at hcontra
      simp at hcontra
    obtain ⟨h1, h2, h3⟩ := validate_dependencies_spec step_id (d0 :: ds)
      (tasks.map Prod.fst) (stepDepGraph tasks step_id)
      (neighbors_stepDepGraph_self tasks step_id) hfilter
    cases hr2 : (validate_dependencies step_id (d0 :: ds) (tasks.map Prod.fst)
        (stepDepGraph tasks step_id)).2 with
    | some c =>
      have hr2u := hr2
      have h1u := h1
      unfold stepDepGraph at hr2u h1u
      unfold validate_depends_on_for_step
      simp only [List.isEmpty_cons, Bool.false_eq_true, if_false]
      rw [h1u, hr2u]
      simp only [List.isEmpty_nil, Bool.not_true, Bool.false_eq_true, if_false]
      refine ⟨⟨fun _ => h2.mp (by rw [hr2]; exact fun h => Option.noConfusion h),
        fun _ => by simp⟩, ?_, ?_⟩
      · intro f hf
        cases hf
        rfl
      · intro c' hc'
        injection hc' with hpay
        injection hpay with hcc
        subst hcc
        exact h3 c hr2
    | none =>
      have hr2u := hr2
      have h1u := h1
      unfold stepDepGraph at hr2u h1u
      unfold validate_depends_on_for_step
      simp only [List.isEmpty_cons, Bool.false_eq_true, if_false]
      rw [h1u, hr2u]
      simp only [List.isEmpty_nil, Bool.not_true, Bool.false_eq_true, if_false]
      exact ⟨⟨fun h => absurd rfl h, fun hcc => absurd hr2 (h2.mpr hcc)⟩,
        fun f hf => Option.noConfusion hf, fun c hc => Option.noConfusion hc⟩

/-- C5 witness: in the concrete scenario the hypotheses hold, the validator
reports CIRCULAR_DEPENDENCY, and a cycle through TASK-002 does exist. -/
theorem C5_dependency_cycle_validation_witness :
    (∀ d ∈ depsC5, wellformedDepId d = true ∧ d ∈ tasksC5.map Prod.fst) ∧
    (∀ f, (validate_depends_on_for_step tasksC5 (S "TASK-002") depsC5).2 = some f →
      f.code = "CIRCULAR_DEPENDENCY") ∧
    CreatesCycle (stepDepGraph tasksC5 (S "TASK-002")) (S "TASK-002") depsC5 := by
  have hwf : ∀ d ∈ depsC5, wellformedDepId d = true ∧ d ∈ tasksC5.map Prod.fst := by
    decide
  have hmain := C5_dependency_cycle_validation tasksC5 (S "TASK-002") depsC5 hwf
  exact ⟨hwf, hmain.2.1, hmain.1.mp (by decide)⟩
